import Mathlib

/-
Verification of `mafContrib/newDitherStackers.py` (dither stackers for a
sky-survey simulation pipeline).  Each stacker generates a finite sequence of
2D offsets (random-in-hexagon, repulsive-random-in-hexagon, Archimedean
spiral, sequential hexagonal grid, pentagon composites) and assigns each
observation record an index into that sequence by a per-visit / per-night /
per-season rule, then applies the offset to (RA, Dec) with the spherical
correction `dRA = x / cos(dec)` and wraps the coordinates.

Numeric modelling: the Python code computes with IEEE doubles (a subset of the
rationals).  Pure lattice/counting code (tile grids, season wrap, rank
assignment) is embedded over `ℚ`/`ℤ` so it is executable; comparisons against
`sqrt 3` are decided by an exact rational test proved equivalent to the real
inequality.  Code that applies transcendental functions (cos, sin, log, sqrt
of arbitrary reals) is embedded over `ℝ`.
-/

namespace Dither

/-- Error conditions surfaced by the embedded stackers.  The Python source
signals them by diagnostic prints followed by the undefined name `stop`
(a NameError that aborts the run), by leaving `self.xOff` unset (an
AttributeError on first use), or — for the pole division — by a numpy
divide-by-zero producing non-finite output; the total embedding turns each
into an explicit error value. -/
inductive DErr where
  | insufficientYield
  | tooFewTiles
  | badIndex
  | streamExhausted
  | tooManySeasons
  | divByZero
  deriving Repr, DecidableEq

/-- Insert an integer into an ascending sorted list, keeping it sorted. -/
def insertSorted (v : ℤ) : List ℤ → List ℤ
  | [] => [v]
  | x :: xs => if v ≤ x then v :: x :: xs else x :: insertSorted v xs

/-- Sort a list of integers ascending (insertion sort). -/
def sortInts (l : List ℤ) : List ℤ := l.foldr insertSorted []

/-- Embedding of `np.unique`: the sorted list of distinct values. -/
def npUnique (l : List ℤ) : List ℤ := (sortInts l).dedup

/-- Embedding of `np.searchsorted(xs, v)` (left variant) for a sorted array
`xs`: the number of entries strictly below `v`, i.e. the rank of `v` among
the sorted values. -/
def searchsortedLeft (xs : List ℤ) (v : ℤ) : ℕ :=
  (xs.takeWhile (fun x => x < v)).length

/-- Per-record vertex index computed by `RandomDitherFieldPerNightStacker.run`
(lines 444-471) and `RepulsiveRandomDitherFieldPerNightStacker.run`
(lines 492-519), which share the same assignment logic.  The source loops over
`np.unique(fieldIds)`; for the records of each field it sets
`vertexIdxs = np.arange(0, len(match), 1) + delta` and advances `delta`,
but the very next statement overwrites `vertexIdxs` with
`np.searchsorted(np.unique(nights), nights)` (the rank of each record's night
among that field's distinct nights), after which `vertexIdxs %= len(xOff)`.
The `delta` cursor is therefore dead: the index actually scattered to record
`j` is `rank-of-night-within-its-field mod numOffsets`, which this function
computes record by record. -/
def fieldPerNightIdxs (fieldIds nights : List ℤ) (numOffsets : ℕ) : List ℕ :=
  (List.range fieldIds.length).map fun j =>
    let f := fieldIds.getD j 0
    let ns := ((fieldIds.zip nights).filter (fun p => p.1 == f)).map Prod.snd
    searchsortedLeft (npUnique ns) (nights.getD j 0) % numOffsets

/-- Season wrap applied to one label: `season % 10` for labels above 9
(`seasons[ind] = seasons[ind] % 10` with `ind = np.where(seasons > 9)`). -/
def wrapSeason (s : ℤ) : ℤ := if s > 9 then s % 10 else s

/-- The distinct season labels above 9 (`np.unique(seasons[ind])`). -/
def overflowSeasons (seasons : List ℤ) : List ℤ :=
  npUnique (seasons.filter (fun s => s > 9))

/-- Season wrap with the too-many-seasons check, as in
`PentagonDitherFieldPerSeasonStacker.run` (lines 782-790),
`PentagonDiamondDitherFieldPerSeasonStacker.run` (lines 849-857) and
`PentagonDiamondDitherPerSeasonStacker.run` (lines 965-973): if more than one
distinct label exceeds 9 the run aborts (`print 'ERROR: ...'; stop`),
otherwise every overflow label is wrapped mod 10. -/
def seasonWrapChecked (seasons : List ℤ) : Except DErr (List ℤ) :=
  if (overflowSeasons seasons).length > 1 then .error .tooManySeasons
  else .ok (seasons.map wrapSeason)

/-- Season wrap of `PentagonDitherPerSeasonStacker.run` (lines 900-908): the
too-many-seasons check is commented out in the source, so every overflow label
is wrapped mod 10 unconditionally and the run continues. -/
def seasonWrapUnchecked (seasons : List ℤ) : List ℤ := seasons.map wrapSeason

/-- Global per-season vertex assignment of `PentagonDitherPerSeasonStacker.run`
(lines 894-945): wrap the seasons (no check), then iterate the sorted unique
wrapped seasons with a cursor `vertexID` (taken mod the offset count), so the
records of the rank-`r` season receive vertex index `r % numOffsets`. -/
def pentagonPerSeasonIdxs (seasons : List ℤ) (numOffsets : ℕ) : List ℕ :=
  let ws := seasonWrapUnchecked seasons
  ws.map fun s => searchsortedLeft (npUnique ws) s % numOffsets

/-- Per-field per-season vertex assignment of
`PentagonDitherFieldPerSeasonStacker.run` (lines 777-810): checked season
wrap first, then for each field the rank of each record's wrapped season among
that field's distinct wrapped seasons, mod the offset count — the same shape
as the per-field per-night assignment. -/
def pentagonFieldPerSeasonIdxs (fieldIds seasons : List ℤ) (numOffsets : ℕ) :
    Except DErr (List ℕ) :=
  (seasonWrapChecked seasons).map fun ws => fieldPerNightIdxs fieldIds ws numOffsets

/-- Embedding of `np.ceil(np.sqrt(n))` on a natural number: the least `k`
with `n ≤ k * k` (a bounded search, so that it evaluates by reduction). -/
def ceilSqrt (n : ℕ) : ℕ :=
  (((List.range (n + 1)).find? fun k => n ≤ k * k).getD n)

/-- Exact decision of the real inequality `(q : ℝ) ≤ sqrt 3 * t` for
rationals `q`, `t` (squaring with sign analysis). -/
def leSqrt3Mul (q t : ℚ) : Bool :=
  if 0 ≤ t then q ≤ 0 || q ^ 2 ≤ 3 * t ^ 2 else q ≤ 0 && 3 * t ^ 2 ≤ q ^ 2

/-- Exact decision of the real inequality `sqrt 3 * t ≤ (q : ℝ)` for
rationals `q`, `t`. -/
def geSqrt3Mul (q t : ℚ) : Bool := leSqrt3Mul (-q) (-t)

/-- The six half-plane tests of `_generateRepRandomOffsets`
(lines 204-215): with `b = sqrt(3)*maxDither`, `m = sqrt(3)`,
`h = maxDither*sqrt(3)/2`, a tile centre `(x, y)` is kept iff
`y <= m*x+b  ∧  y >= m*x-b  ∧  y <= -m*x+b  ∧  y >= -m*x-b ∧
 y <= h  ∧  y >= -h`, i.e. `y ≤ sqrt3*(x+d)`, `y ≥ sqrt3*(x-d)`,
`y ≤ sqrt3*(d-x)`, `y ≥ sqrt3*(-x-d)`, `y ≤ sqrt3*(d/2)`,
`y ≥ sqrt3*(-(d/2))`. -/
def insideHexB (d x y : ℚ) : Bool :=
  leSqrt3Mul y (x + d) && geSqrt3Mul y (x - d) &&
  leSqrt3Mul y (d - x) && geSqrt3Mul y (-x - d) &&
  leSqrt3Mul y (d / 2) && geSqrt3Mul y (-(d / 2))

/-- The x coordinate of column `c` of the tile grid of
`_generateRepRandomOffsets` (lines 170-186): `xCenter` starts at the far-left
coordinate `-(ts*(N/2 - 0.5))` (`ts = 2*maxDither/N` the tile side) and steps
right by `ts` within each row; every row repeats the same x pattern. -/
def tileX (d : ℚ) (N : ℕ) (c : ℕ) : ℚ :=
  -(2 * d / N * ((N : ℚ) / 2 - 1 / 2)) + c * (2 * d / N)

/-- The y coordinate of row `r` of the tile grid (lines 188-202): `yCenter`
starts at the top coordinate `ts*(N/2 - 0.5)` and steps down by `ts` from one
row to the next; horizontally adjacent tiles share the same y. -/
def tileY (d : ℚ) (N : ℕ) (r : ℕ) : ℚ :=
  2 * d / N * ((N : ℚ) / 2 - 1 / 2) - r * (2 * d / N)

/-- Row `r` of the tile grid, left to right. -/
def tileRow (d : ℚ) (N : ℕ) (r : ℕ) : List (ℚ × ℚ) :=
  (List.range N).map fun c => (tileX d N c, tileY d N r)

/-- Tile centres of `_generateRepRandomOffsets` (lines 163-202): the square of
side `2*maxDither` centred at the origin tiled by `N × N` squares, in
row-major order (top row first). -/
def tileCenters (d : ℚ) (N : ℕ) : List (ℚ × ℚ) :=
  (List.range N).flatMap (tileRow d N)

/-- The tile centres inside the hexagon (lines 209-235): after
`insideHex = np.where(...)` the source rebuilds `xCenter`, `yCenter` as the
Python lists of the selected centres, kept in grid order. -/
def hexTiles (d : ℚ) (N : ℕ) : List (ℚ × ℚ) :=
  (tileCenters d N).filter fun p => insideHexB d p.1 p.2

/-- State of the repulsive draw loop (lines 241-275): the remaining
tile-centre coordinate pools `xC`, `yC` (Python lists the source mutates with
`list.remove`, which deletes the first occurrence of a value), the counter
`numPointsInsideHex` and the cursors `index_sq`, `index_pt` into the two
pre-drawn random arrays. -/
structure RepState where
  xC : List ℚ
  yC : List ℚ
  cnt : ℤ
  isq : ℕ
  ipt : ℕ

/-- The repulsive draw loop (`for q in range(0, noffsets)`, lines 251-275).
Each iteration picks `randIndex = floor(u * cnt)` from the next square-stream
value `u`; an out-of-range index enters a while loop that exhausts the stream
and aborts (`stop`), embedded as `.error .badIndex` (the source only guards
the upper end; a negative index cannot arise from `np.random.rand` values in
`[0,1)` and is folded into the same error).  Otherwise the offset is the
selected centre jittered by `(u' - 0.5)*ts` per coordinate, and the source
removes `xCenter[randIndex]` and `yCenter[randIndex]` *by value* from the two
pools and decrements the counter.  The loop also records the selected centre
pair `(xc, yc)` — the tile each output point originates from. -/
def repDrawLoop (ts : ℚ) (sqs pts : List ℚ) :
    ℕ → RepState → List (ℚ × ℚ) → List (ℚ × ℚ) →
    Except DErr (List (ℚ × ℚ) × List (ℚ × ℚ))
  | 0, _, accOff, accTile => .ok (accOff.reverse, accTile.reverse)
  | q + 1, st, accOff, accTile =>
    match sqs.get? st.isq with
    | none => .error .streamExhausted
    | some u =>
      let ri : ℤ := ⌊u * st.cnt⌋
      if ri < 0 ∨ (st.xC.length : ℤ) - 1 < ri then .error .badIndex
      else
        match st.xC.get? ri.toNat, st.yC.get? ri.toNat,
              pts.get? st.ipt, pts.get? (st.ipt + 1) with
        | some xc, some yc, some u1, some u2 =>
          repDrawLoop ts sqs pts q
            ⟨st.xC.erase xc, st.yC.erase yc, st.cnt - 1, st.isq + 1, st.ipt + 2⟩
            ((xc + (u1 - 1 / 2) * ts, yc + (u2 - 1 / 2) * ts) :: accOff)
            ((xc, yc) :: accTile)
        | _, _, _, _ => .error .streamExhausted

/-- Embedding of `RepulsiveRandomDitherFieldPerVisitStacker._generateRepRandomOffsets`
(lines 159-278).  `numTiles = (ceil(sqrt(noffsets)) + 170)^2` tiles (side
`ts = 2*maxDither/N`, `N = ceil(sqrt(noffsets)) + 170`) cover the
circumscribing square; centres outside the hexagon are discarded; if fewer
remain than requested the source aborts (`print 'ERROR: ...'; stop`), embedded
as `.error .tooFewTiles`; otherwise the draw loop runs on the two pre-drawn
random arrays `sqs` (= `randNumsForLatticeSq`, length `3*noffsets` in the
source) and `pts` (= `randNumsForPointInSq`, length `2*noffsets`).  Returns
the offsets together with the trace of originating tile centres. -/
def generateRepRandomOffsets (d : ℚ) (noffsets : ℕ) (sqs pts : List ℚ) :
    Except DErr (List (ℚ × ℚ) × List (ℚ × ℚ)) :=
  let N : ℕ := ceilSqrt noffsets + 170
  let ts : ℚ := 2 * d / N
  let inHex := hexTiles d N
  let M := inHex.length
  if (M : ℤ) < noffsets then .error .tooFewTiles
  else repDrawLoop ts sqs pts noffsets
    ⟨inHex.map Prod.fst, inHex.map Prod.snd, (M : ℤ), 0, 0⟩ [] []

/-! Helper lemmas about the tile grid and the draw loop. -/

theorem tileX_formula (d : ℚ) (N c : ℕ) :
    tileX d N c = d * (2 * c + 1 - (N : ℚ)) / N := by
  rw [tileX]; ring

theorem tileY_formula (d : ℚ) (N r : ℕ) :
    tileY d N r = d * ((N : ℚ) - 1 - 2 * r) / N := by
  rw [tileY]; ring

theorem hexTiles_rows (d : ℚ) (N : ℕ) :
    hexTiles d N =
      (List.range N).flatMap fun r =>
        (tileRow d N r).filter fun p => insideHexB d p.1 p.2 := by
  rw [hexTiles, tileCenters, List.filter_flatMap]

theorem snd_of_mem_tileRow {d : ℚ} {N r : ℕ} {p : ℚ × ℚ}
    (hp : p ∈ tileRow d N r) : p.2 = tileY d N r := by
  rw [tileRow] at hp
  obtain ⟨c, _, rfl⟩ := List.mem_map.mp hp
  rfl

/-- A whole grid row is discarded by the hexagon filter as soon as its `y`
coordinate fails the two horizontal constraints `|y| ≤ sqrt3 * (d/2)`,
which for `d = 1` amounts to `3 * N^2 < 4 * (N - 1 - 2r)^2`. -/
theorem tileRow_filter_nil {N r : ℕ}
    (h : 3 * (N : ℤ) ^ 2 < 4 * ((N : ℤ) - 1 - 2 * r) ^ 2) :
    (tileRow 1 N r).filter (fun p => insideHexB 1 p.1 p.2) = [] := by
  rcases Nat.eq_zero_or_pos N with hN | hN
  · subst hN; rfl
  apply List.filter_eq_nil_iff.mpr
  intro p hp
  have hy : p.2 = tileY 1 N r := snd_of_mem_tileRow hp
  have hNQ : (0 : ℚ) < (N : ℚ) := by exact_mod_cast hN
  have hyv : p.2 = ((N : ℚ) - 1 - 2 * r) / N := by
    rw [hy, tileY_formula]; ring
  have hsq : 3 / 4 < p.2 ^ 2 := by
    rw [hyv, div_pow, lt_div_iff₀ (by positivity)]
    have h' : 3 * ((N : ℚ)) ^ 2 < 4 * ((N : ℚ) - 1 - 2 * r) ^ 2 := by
      exact_mod_cast h
    nlinarith
  intro habs
  rw [insideHexB] at habs
  simp only [Bool.and_eq_true] at habs
  obtain ⟨⟨⟨⟨⟨_, _⟩, _⟩, _⟩, h5⟩, h6⟩ := habs
  rw [leSqrt3Mul] at h5
  rw [geSqrt3Mul, leSqrt3Mul] at h6
  rw [if_pos (by norm_num)] at h5
  rw [if_pos (by norm_num)] at h6
  simp only [Bool.or_eq_true, decide_eq_true_eq] at h5 h6
  have hsq' : ¬ p.2 ^ 2 ≤ 3 / 4 := by nlinarith
  rcases h5 with h5 | h5
  · rcases h6 with h6 | h6
    · nlinarith
    · exact hsq' (by nlinarith)
  · exact hsq' (by nlinarith)

/-- A list all of whose entries equal `a` has last entry `a`. -/
theorem getLast?_of_all_eq {α : Type} {l : List α} {a : α}
    (h : ∀ x ∈ l, x = a) (hne : l ≠ []) : l.getLast? = some a := by
  induction l with
  | nil => exact absurd rfl hne
  | cons x xs ih =>
    rcases xs with _ | ⟨y, ys⟩
    · simp [h x (by simp)]
    · rw [List.getLast?_cons_cons]
      exact ih (fun z hz => h z (by simp [hz])) (by simp)

/-- Erasing the common value from a constant list drops its head. -/
theorem erase_of_all_eq {α : Type} [DecidableEq α] {l : List α} {a : α}
    (h : ∀ x ∈ l, x = a) : l.erase a = l.tail := by
  cases l with
  | nil => rfl
  | cons x xs => rw [h x (by simp), List.erase_cons_head, List.tail_cons]

/-- A list with two distinct members has at least two entries. -/
theorem two_le_length_of_mem {α : Type} {l : List α} {a b : α}
    (ha : a ∈ l) (hb : b ∈ l) (hab : a ≠ b) : 2 ≤ l.length := by
  match l with
  | [] => cases ha
  | [x] =>
    simp only [List.mem_singleton] at ha hb
    exact absurd (ha.trans hb.symm) hab
  | x :: y :: xs => simp [List.length_cons]

theorem get?_last {α : Type} (l : List α) : l.get? (l.length - 1) = l.getLast? := by
  rw [List.get?_eq_getElem?, List.getLast?_eq_getElem?]

/-- Floor computation for the draw index when the stream value is
`29999/30000`: for pool sizes up to `30000` this selects the last entry. -/
theorem floor_select_last (m : ℤ) (h1 : 1 ≤ m) (h2 : m ≤ 30000) :
    ⌊(29999 / 30000 : ℚ) * (m : ℚ)⌋ = m - 1 := by
  have hm : ((m : ℚ)) ≤ 30000 := by exact_mod_cast h2
  have hm1 : (1 : ℚ) ≤ (m : ℚ) := by exact_mod_cast h1
  rw [Int.floor_eq_iff]
  constructor
  · push_cast; linarith
  · push_cast; linarith

/-- One successful iteration of the draw loop, with every partial value
supplied as a hypothesis. -/
theorem repDrawLoop_step (ts : ℚ) (sqs pts : List ℚ) (q : ℕ)
    (xC yC : List ℚ) (cnt : ℤ) (isq ipt : ℕ)
    (acc1 acc2 : List (ℚ × ℚ)) (u xc yc u1 u2 : ℚ)
    (hu : sqs.get? isq = some u)
    (h0 : 0 ≤ ⌊u * (cnt : ℚ)⌋)
    (hlt : ⌊u * (cnt : ℚ)⌋ ≤ (xC.length : ℤ) - 1)
    (hx : xC.get? (⌊u * (cnt : ℚ)⌋).toNat = some xc)
    (hy : yC.get? (⌊u * (cnt : ℚ)⌋).toNat = some yc)
    (hp1 : pts.get? ipt = some u1)
    (hp2 : pts.get? (ipt + 1) = some u2) :
    repDrawLoop ts sqs pts (q + 1) ⟨xC, yC, cnt, isq, ipt⟩ acc1 acc2 =
      repDrawLoop ts sqs pts q
        ⟨xC.erase xc, yC.erase yc, cnt - 1, isq + 1, ipt + 2⟩
        ((xc + (u1 - 1 / 2) * ts, yc + (u2 - 1 / 2) * ts) :: acc1)
        ((xc, yc) :: acc2) := by
  rw [repDrawLoop]
  simp only [hu]
  rw [if_neg (by push_neg; exact ⟨h0, hlt⟩)]
  rw [hx, hy, hp1, hp2]

/-! Structure of the `N = 172` tile grid (the grid used for `noffsets = 2`):
rows 0-11 and 160-171 lie entirely outside the hexagon, rows 12 and 159 are
the extreme surviving rows, and rows 13-158 are handled abstractly. -/

set_option maxRecDepth 10000 in
theorem range172_split :
    List.range 172 =
      (((List.range 12 ++ [12]) ++ (List.range 146).map fun i => 13 + i) ++ [159]) ++
        (List.range 12).map fun i => 160 + i := by
  with_unfolding_all rfl

theorem rows_lo_nil :
    ((List.range 12).flatMap fun r =>
      (tileRow 1 172 r).filter fun p => insideHexB 1 p.1 p.2) = [] := by
  apply List.flatMap_eq_nil_iff.mpr
  intro r hr
  apply tileRow_filter_nil
  have h : (r : ℤ) ≤ 11 := by exact_mod_cast Nat.le_of_lt_succ (List.mem_range.mp hr)
  push_cast
  nlinarith [sq_nonneg ((171 : ℤ) - 2 * r - 149)]

theorem rows_hi_nil :
    (((List.range 12).map fun i => 160 + i).flatMap fun r =>
      (tileRow 1 172 r).filter fun p => insideHexB 1 p.1 p.2) = [] := by
  apply List.flatMap_eq_nil_iff.mpr
  intro r hr
  obtain ⟨i, hi, rfl⟩ := List.mem_map.mp hr
  apply tileRow_filter_nil
  have h : (i : ℤ) ≤ 11 := by exact_mod_cast Nat.le_of_lt_succ (List.mem_range.mp hi)
  have h0 : (0 : ℤ) ≤ i := Int.ofNat_nonneg i
  push_cast
  nlinarith [sq_nonneg ((149 : ℤ) + 2 * i)]

theorem mid_snd {p : ℚ × ℚ}
    (hp : p ∈ ((List.range 146).map fun i => 13 + i).flatMap fun r =>
      (tileRow 1 172 r).filter fun pp => insideHexB 1 pp.1 pp.2) :
    p.2 ≠ tileY 1 172 159 := by
  obtain ⟨r, hr, hpr⟩ := List.mem_flatMap.mp hp
  obtain ⟨i, hi, rfl⟩ := List.mem_map.mp hr
  have hi' : i < 146 := List.mem_range.mp hi
  rw [snd_of_mem_tileRow (List.mem_of_mem_filter hpr), tileY_formula, tileY_formula]
  intro habs
  have hq : ((i : ℚ)) = 146 := by
    field_simp at habs
    linarith
  have hi146 : i = 146 := by exact_mod_cast hq
  omega

theorem hexTiles172_split :
    hexTiles 1 172 =
      (((tileRow 1 172 12).filter fun p => insideHexB 1 p.1 p.2) ++
        (((List.range 146).map fun i => 13 + i).flatMap fun r =>
          (tileRow 1 172 r).filter fun p => insideHexB 1 p.1 p.2)) ++
      ((tileRow 1 172 159).filter fun p => insideHexB 1 p.1 p.2) := by
  rw [hexTiles_rows, range172_split]
  rw [List.flatMap_append, List.flatMap_append, List.flatMap_append, List.flatMap_append]
  rw [rows_lo_nil, rows_hi_nil]
  simp

set_option maxRecDepth 10000 in
theorem range172_split_at129 :
    List.range 172 = (List.range' 0 129 ++ [129]) ++ List.range' 130 42 := by
  with_unfolding_all rfl

theorem tileX129_val : tileX 1 172 129 = 87 / 172 := by
  rw [tileX_formula]; norm_num

theorem tileX42_val : tileX 1 172 42 = -87 / 172 := by
  rw [tileX_formula]; norm_num

theorem tileY159_val : tileY 1 172 159 = -147 / 172 := by
  rw [tileY_formula]; norm_num

theorem tileY12_val : tileY 1 172 12 = 147 / 172 := by
  rw [tileY_formula]; norm_num

theorem tile129_12_in : insideHexB 1 (tileX 1 172 129) (tileY 1 172 12) = true := by
  with_unfolding_all rfl

theorem tile129_159_in : insideHexB 1 (tileX 1 172 129) (tileY 1 172 159) = true := by
  with_unfolding_all rfl

theorem tile42_159_in : insideHexB 1 (tileX 1 172 42) (tileY 1 172 159) = true := by
  with_unfolding_all rfl

set_option maxRecDepth 10000 in
theorem suffix159_nil :
    ((List.range' 130 42).map fun c => (tileX 1 172 c, tileY 1 172 159)).filter
      (fun p => insideHexB 1 p.1 p.2) = [] := by
  with_unfolding_all rfl

theorem row159_filter :
    (tileRow 1 172 159).filter (fun p => insideHexB 1 p.1 p.2) =
      ((List.range' 0 129).map fun c => (tileX 1 172 c, tileY 1 172 159)).filter
        (fun p => insideHexB 1 p.1 p.2) ++ [(tileX 1 172 129, tileY 1 172 159)] := by
  rw [tileRow, range172_split_at129, List.map_append, List.map_append,
    List.filter_append, List.filter_append, suffix159_nil]
  simp [List.filter_cons, tile129_159_in]

theorem tile129_12_mem :
    (tileX 1 172 129, tileY 1 172 12) ∈
      (tileRow 1 172 12).filter (fun p => insideHexB 1 p.1 p.2) := by
  apply List.mem_filter.mpr
  refine ⟨?_, tile129_12_in⟩
  rw [tileRow]
  exact List.mem_map.mpr ⟨129, List.mem_range.mpr (by norm_num), rfl⟩

theorem tile42_159_mem :
    (tileX 1 172 42, tileY 1 172 159) ∈
      (tileRow 1 172 159).filter (fun p => insideHexB 1 p.1 p.2) := by
  apply List.mem_filter.mpr
  refine ⟨?_, tile42_159_in⟩
  rw [tileRow]
  exact List.mem_map.mpr ⟨42, List.mem_range.mpr (by norm_num), rfl⟩

theorem tile129_159_mem :
    (tileX 1 172 129, tileY 1 172 159) ∈
      (tileRow 1 172 159).filter (fun p => insideHexB 1 p.1 p.2) := by
  rw [row159_filter]
  exact List.mem_append_right _ (List.mem_singleton.mpr rfl)

theorem row159_two_le :
    2 ≤ ((tileRow 1 172 159).filter (fun p => insideHexB 1 p.1 p.2)).length := by
  refine two_le_length_of_mem tile42_159_mem tile129_159_mem ?_
  rw [tileX42_val, tileX129_val]
  simp only [ne_eq, Prod.mk.injEq, not_and]
  intro h
  norm_num at h

theorem hexTiles172_two_le : 2 ≤ (hexTiles 1 172).length := by
  rw [hexTiles172_split, List.length_append, List.length_append]
  have := row159_two_le
  omega

theorem hexTiles172_len_le : (hexTiles 1 172).length ≤ 29584 := by
  have h1 := List.length_filter_le (fun p => insideHexB 1 p.1 p.2) (tileCenters 1 172)
  have h2 : (tileCenters 1 172).length = 29584 := by
    rw [tileCenters, List.length_flatMap]
    have hrows : List.map (List.length ∘ tileRow 1 172) (List.range 172) =
        List.map (fun _ => 172) (List.range 172) := by
      apply List.map_congr_left
      intro r _
      show (tileRow 1 172 r).length = 172
      rw [tileRow, List.length_map, List.length_range]
    rw [hrows, List.map_const', List.sum_replicate, List.length_range, smul_eq_mul]
  rw [hexTiles] at *
  omega

theorem hexTiles172_fst_getLast :
    ((hexTiles 1 172).map Prod.fst).getLast? = some ((87 : ℚ) / 172) := by
  rw [hexTiles172_split, List.map_append, List.getLast?_append]
  rw [row159_filter, List.map_append, List.getLast?_append]
  simp [tileX129_val]

theorem hexTiles172_snd_getLast :
    ((hexTiles 1 172).map Prod.snd).getLast? = some ((-147 : ℚ) / 172) := by
  rw [hexTiles172_split, List.map_append, List.getLast?_append]
  rw [row159_filter, List.map_append, List.getLast?_append]
  simp [tileY159_val]

theorem mem_fst_87 : (87 : ℚ) / 172 ∈ (hexTiles 1 172).map Prod.fst := by
  rw [hexTiles172_split]
  refine List.mem_map.mpr ⟨(tileX 1 172 129, tileY 1 172 12), ?_, tileX129_val⟩
  exact List.mem_append_left _ (List.mem_append_left _ tile129_12_mem)

theorem mem_snd_147 : (-147 : ℚ) / 172 ∈ (hexTiles 1 172).map Prod.snd := by
  rw [hexTiles172_split]
  refine List.mem_map.mpr ⟨(tileX 1 172 129, tileY 1 172 159), ?_, tileY159_val⟩
  exact List.mem_append_right _ tile129_159_mem

theorem snd_all_159 : ∀ y ∈ ((tileRow 1 172 159).filter
    (fun p => insideHexB 1 p.1 p.2)).map Prod.snd, y = (-147 : ℚ) / 172 := by
  intro y hy
  obtain ⟨p, hp, rfl⟩ := List.mem_map.mp hy
  rw [snd_of_mem_tileRow (List.mem_of_mem_filter hp), tileY159_val]

/-- Erasing the first-drawn tile's x coordinate removes an entry of the
row-12 block, leaving the row-159 block (hence its last entry) intact. -/
theorem erased_fst_getLast :
    (((hexTiles 1 172).map Prod.fst).erase ((87 : ℚ) / 172)).getLast? =
      some ((87 : ℚ) / 172) := by
  rw [hexTiles172_split, List.map_append, List.map_append]
  have h87 : (87 : ℚ) / 172 ∈
      ((tileRow 1 172 12).filter (fun p => insideHexB 1 p.1 p.2)).map Prod.fst :=
    List.mem_map.mpr ⟨(tileX 1 172 129, tileY 1 172 12), tile129_12_mem, tileX129_val⟩
  rw [List.erase_append_left _ (List.mem_append_left _ h87)]
  rw [List.getLast?_append]
  rw [row159_filter, List.map_append, List.getLast?_append]
  simp [tileX129_val]

/-- Erasing the first-drawn tile's y coordinate removes the head of the
row-159 block (rows 12-158 have different y values); the block still ends in
the same y value because it had at least two entries. -/
theorem erased_snd_getLast :
    (((hexTiles 1 172).map Prod.snd).erase ((-147 : ℚ) / 172)).getLast? =
      some ((-147 : ℚ) / 172) := by
  rw [hexTiles172_split, List.map_append, List.map_append]
  have hnotin : (-147 : ℚ) / 172 ∉
      (((tileRow 1 172 12).filter (fun p => insideHexB 1 p.1 p.2)).map Prod.snd ++
        (((List.range 146).map fun i => 13 + i).flatMap fun r =>
          (tileRow 1 172 r).filter fun p => insideHexB 1 p.1 p.2).map Prod.snd) := by
    intro hmem
    rcases List.mem_append.mp hmem with hmem | hmem
    · obtain ⟨p, hp, hval⟩ := List.mem_map.mp hmem
      rw [snd_of_mem_tileRow (List.mem_of_mem_filter hp), tileY12_val] at hval
      norm_num at hval
    · obtain ⟨p, hp, hval⟩ := List.mem_map.mp hmem
      have := mid_snd hp
      rw [tileY159_val] at this
      exact this hval
  rw [List.erase_append_right _ hnotin]
  rw [erase_of_all_eq snd_all_159]
  rw [List.getLast?_append]
  have htail : ((((tileRow 1 172 159).filter
      (fun p => insideHexB 1 p.1 p.2)).map Prod.snd).tail).getLast? =
      some ((-147 : ℚ) / 172) := by
    apply getLast?_of_all_eq
    · intro x hx
      exact snd_all_159 x (List.mem_of_mem_tail hx)
    · have hlen := row159_two_le
      have : (((tileRow 1 172 159).filter
          (fun p => insideHexB 1 p.1 p.2)).map Prod.snd).tail.length =
          ((tileRow 1 172 159).filter (fun p => insideHexB 1 p.1 p.2)).length - 1 := by
        rw [List.length_tail, List.length_map]
      intro habs
      rw [habs] at this
      simp at this
      omega
  rw [htail]
  rfl

set_option maxHeartbeats 1000000 in
/-- Two iterations of the draw loop over an abstract pool of at most 29584
tiles, with the square stream constantly `29999/30000`: each draw selects the
last entry of the current pool.  If erasing the first selection's coordinates
leaves the last entries of both coordinate pools unchanged, the second draw
returns the same tile. -/
theorem repDrawLoop_last_twice (ts pts0 pts1 pts2 pts3 : ℚ) (F : List (ℚ × ℚ))
    (v w : ℚ)
    (hM2 : 2 ≤ F.length) (hMle : F.length ≤ 29584)
    (hfst : (F.map Prod.fst).getLast? = some v)
    (hsnd : (F.map Prod.snd).getLast? = some w)
    (hfst1 : ((F.map Prod.fst).erase v).getLast? = some v)
    (hsnd1 : ((F.map Prod.snd).erase w).getLast? = some w)
    (hvmem : v ∈ F.map Prod.fst) (hwmem : w ∈ F.map Prod.snd) :
    repDrawLoop ts (List.replicate 6 (29999 / 30000)) [pts0, pts1, pts2, pts3] 2
      ⟨F.map Prod.fst, F.map Prod.snd, (F.length : ℤ), 0, 0⟩ [] [] =
      .ok ([(v + (pts0 - 1 / 2) * ts, w + (pts1 - 1 / 2) * ts),
            (v + (pts2 - 1 / 2) * ts, w + (pts3 - 1 / 2) * ts)],
           [(v, w), (v, w)]) := by
  have hXlen : (F.map Prod.fst).length = F.length := List.length_map _ _
  have hYlen : (F.map Prod.snd).length = F.length := List.length_map _ _
  have hX1len : ((F.map Prod.fst).erase v).length = F.length - 1 := by
    rw [List.length_erase_of_mem hvmem, hXlen]
  have hY1len : ((F.map Prod.snd).erase w).length = F.length - 1 := by
    rw [List.length_erase_of_mem hwmem, hYlen]
  have hfl1 : ⌊(29999 / 30000 : ℚ) * (((F.length : ℤ)) : ℚ)⌋ = (F.length : ℤ) - 1 :=
    floor_select_last _ (by omega) (by omega)
  have htn1 : ((F.length : ℤ) - 1).toNat = F.length - 1 := by omega
  have hfl2 : ⌊(29999 / 30000 : ℚ) * (Int.cast ((F.length : ℤ) - 1) : ℚ)⌋ =
      (F.length : ℤ) - 1 - 1 :=
    floor_select_last ((F.length : ℤ) - 1) (by omega) (by omega)
  have htn2 : ((F.length : ℤ) - 1 - 1).toNat = (F.length - 1) - 1 := by omega
  have h01 : 0 ≤ ⌊(29999 / 30000 : ℚ) * (((F.length : ℤ)) : ℚ)⌋ := by
    rw [hfl1]; omega
  have hlt1 : ⌊(29999 / 30000 : ℚ) * (((F.length : ℤ)) : ℚ)⌋ ≤
      ((F.map Prod.fst).length : ℤ) - 1 := by
    rw [hfl1, hXlen]
  have h02 : 0 ≤ ⌊(29999 / 30000 : ℚ) * (Int.cast ((F.length : ℤ) - 1) : ℚ)⌋ := by
    rw [hfl2]; omega
  have hlt2 : ⌊(29999 / 30000 : ℚ) * (Int.cast ((F.length : ℤ) - 1) : ℚ)⌋ ≤
      (((F.map Prod.fst).erase v).length : ℤ) - 1 := by
    rw [hfl2, hX1len]; omega
  have hx1 : (F.map Prod.fst).get?
      (⌊(29999 / 30000 : ℚ) * (((F.length : ℤ)) : ℚ)⌋).toNat = some v := by
    rw [hfl1, htn1, ← hXlen, get?_last, hfst]
  have hy1 : (F.map Prod.snd).get?
      (⌊(29999 / 30000 : ℚ) * (((F.length : ℤ)) : ℚ)⌋).toNat = some w := by
    rw [hfl1, htn1, ← hYlen, get?_last, hsnd]
  have hx2 : ((F.map Prod.fst).erase v).get?
      (⌊(29999 / 30000 : ℚ) * (Int.cast ((F.length : ℤ) - 1) : ℚ)⌋).toNat = some v := by
    rw [hfl2, htn2, ← hX1len, get?_last, hfst1]
  have hy2 : ((F.map Prod.snd).erase w).get?
      (⌊(29999 / 30000 : ℚ) * (Int.cast ((F.length : ℤ) - 1) : ℚ)⌋).toNat = some w := by
    rw [hfl2, htn2, ← hY1len, get?_last, hsnd1]
  have e2 := repDrawLoop_step ts (List.replicate 6 (29999 / 30000))
    [pts0, pts1, pts2, pts3] 1
    (F.map Prod.fst) (F.map Prod.snd) (F.length : ℤ) 0 0 [] []
    (29999 / 30000) v w pts0 pts1 rfl h01 hlt1 hx1 hy1 rfl rfl
  have e3 := repDrawLoop_step ts (List.replicate 6 (29999 / 30000))
    [pts0, pts1, pts2, pts3] 0
    ((F.map Prod.fst).erase v) ((F.map Prod.snd).erase w)
    ((F.length : ℤ) - 1) (0 + 1) (0 + 2)
    [(v + (pts0 - 1 / 2) * ts, w + (pts1 - 1 / 2) * ts)] [(v, w)]
    (29999 / 30000) v w pts2 pts3 rfl h02 hlt2 hx2 hy2 rfl rfl
  rw [e2, e3, repDrawLoop]
  simp

/-- Symbolic execution of the repulsive generator at `maxDither = 1`,
`noffsets = 2`, square stream constantly `29999/30000` (every draw selects
the last remaining pool entry) and point stream `0`: both draws originate
from the corner tile centred at `(87/172, -147/172)`.  The first draw removes
the first occurrences of that tile's coordinates from the two pools, and
those occurrences belong to two different tiles (the `x` to the last tile of
row 12, the `y` to the first tile of row 159), so the selected tile itself
survives and is selected again by the second draw. -/
theorem repRun_n2_eq :
    generateRepRandomOffsets 1 2 (List.replicate 6 (29999 / 30000)) [0, 0, 0, 0] =
      .ok ([((1 : ℚ) / 2, (-37 : ℚ) / 43), (1 / 2, -37 / 43)],
        [((87 : ℚ) / 172, (-147 : ℚ) / 172), (87 / 172, -147 / 172)]) := by
  have hceil : ceilSqrt 2 + 170 = 172 := by with_unfolding_all rfl
  have hM2 := hexTiles172_two_le
  have h := repDrawLoop_last_twice (2 * 1 / ((172 : ℕ) : ℚ)) 0 0 0 0 (hexTiles 1 172)
    ((87 : ℚ) / 172) ((-147 : ℚ) / 172) hexTiles172_two_le hexTiles172_len_le
    hexTiles172_fst_getLast hexTiles172_snd_getLast
    erased_fst_getLast erased_snd_getLast mem_fst_87 mem_snd_147
  simp only [generateRepRandomOffsets]
  rw [hceil]
  have hcond : ¬(((hexTiles 1 172).length : ℤ) < ((2 : ℕ) : ℤ)) := by push_cast; omega
  rw [if_neg hcond, h]
  norm_num

/-! Structure of the `N = 171` tile grid (used for `noffsets = 1`): rows 0-10
lie outside the hexagon and the first surviving tile is column 43 of row 11. -/

theorem rows_lo_nil_171 :
    ((List.range 11).flatMap fun r =>
      (tileRow 1 171 r).filter fun p => insideHexB 1 p.1 p.2) = [] := by
  apply List.flatMap_eq_nil_iff.mpr
  intro r hr
  apply tileRow_filter_nil
  have h : (r : ℤ) ≤ 10 := by exact_mod_cast Nat.le_of_lt_succ (List.mem_range.mp hr)
  push_cast
  nlinarith [sq_nonneg ((170 : ℤ) - 2 * r - 150)]

set_option maxRecDepth 10000 in
theorem range171_split :
    List.range 171 = (List.range 11 ++ [11]) ++ (List.range 159).map fun i => 12 + i := by
  with_unfolding_all rfl

set_option maxRecDepth 10000 in
theorem range171_split_at43 :
    List.range 171 = (List.range' 0 43 ++ [43]) ++ List.range' 44 127 := by
  with_unfolding_all rfl

set_option maxRecDepth 10000 in
theorem prefix11_nil :
    ((List.range' 0 43).map fun c => (tileX 1 171 c, tileY 1 171 11)).filter
      (fun p => insideHexB 1 p.1 p.2) = [] := by
  with_unfolding_all rfl

theorem tile43_11_in : insideHexB 1 (tileX 1 171 43) (tileY 1 171 11) = true := by
  with_unfolding_all rfl

theorem tileX43_val : tileX 1 171 43 = -84 / 171 := by
  rw [tileX_formula]; norm_num

theorem tileY11_val : tileY 1 171 11 = 148 / 171 := by
  rw [tileY_formula]; norm_num

theorem hexTiles171_eq :
    hexTiles 1 171 =
      (tileX 1 171 43, tileY 1 171 11) ::
        ((((List.range' 44 127).map fun c => (tileX 1 171 c, tileY 1 171 11)).filter
            (fun p => insideHexB 1 p.1 p.2)) ++
          (((List.range 159).map fun i => 12 + i).flatMap fun r =>
            (tileRow 1 171 r).filter fun p => insideHexB 1 p.1 p.2)) := by
  rw [hexTiles_rows, range171_split, List.flatMap_append, List.flatMap_append,
    rows_lo_nil_171]
  have hrow11 : (tileRow 1 171 11).filter (fun p => insideHexB 1 p.1 p.2) =
      (tileX 1 171 43, tileY 1 171 11) ::
        ((List.range' 44 127).map fun c => (tileX 1 171 c, tileY 1 171 11)).filter
          (fun p => insideHexB 1 p.1 p.2) := by
    rw [tileRow, range171_split_at43, List.map_append, List.map_append,
      List.filter_append, List.filter_append, prefix11_nil]
    simp [List.filter_cons, tile43_11_in]
  simp [hrow11]

/-- One iteration of the draw loop with square-stream value `0`: the head of
the pool is selected. -/
theorem repDrawLoop_head_once (ts pts0 pts1 : ℚ) (sqs : List ℚ)
    (F : List (ℚ × ℚ)) (v w : ℚ)
    (hsq : sqs.get? 0 = some 0)
    (hfst : (F.map Prod.fst).head? = some v)
    (hsnd : (F.map Prod.snd).head? = some w) :
    repDrawLoop ts sqs [pts0, pts1] 1
      ⟨F.map Prod.fst, F.map Prod.snd, (F.length : ℤ), 0, 0⟩ [] [] =
      .ok ([(v + (pts0 - 1 / 2) * ts, w + (pts1 - 1 / 2) * ts)], [(v, w)]) := by
  have hne : F ≠ [] := by
    intro h
    rw [h] at hfst
    simp at hfst
  have hlen : 1 ≤ F.length := List.length_pos.mpr hne
  have hfl : ⌊(0 : ℚ) * ((F.length : ℤ) : ℚ)⌋ = 0 := by simp
  have hx : (F.map Prod.fst).get? (⌊(0 : ℚ) * ((F.length : ℤ) : ℚ)⌋).toNat = some v := by
    rw [hfl, Int.toNat_zero, List.get?_zero, hfst]
  have hy : (F.map Prod.snd).get? (⌊(0 : ℚ) * ((F.length : ℤ) : ℚ)⌋).toNat = some w := by
    rw [hfl, Int.toNat_zero, List.get?_zero, hsnd]
  have e2 := repDrawLoop_step ts sqs [pts0, pts1] 0
    (F.map Prod.fst) (F.map Prod.snd) (F.length : ℤ) 0 0 [] []
    0 v w pts0 pts1 hsq (by rw [hfl]) (by rw [hfl]; simp [List.length_map]; omega)
    hx hy rfl rfl
  rw [e2, repDrawLoop]
  simp

/-- Symbolic execution of the repulsive generator at `maxDither = 1`,
`noffsets = 1`, square stream `0` (the draw selects the first in-hexagon
tile, column 43 of row 11) and point stream `[0, 199/200]`: the emitted
offset `(-85/171, 14899/17100)` leaves the hexagon across its upper-left
edge, because the tile straddles the edge and the jitter `u2 = 199/200`
pushes the point beyond it. -/
theorem repRun_n1_eq :
    generateRepRandomOffsets 1 1 [0, 0, 0] [0, 199 / 200] =
      .ok ([((-85 : ℚ) / 171, (14899 : ℚ) / 17100)],
        [((-84 : ℚ) / 171, (148 : ℚ) / 171)]) := by
  have hceil : ceilSqrt 1 + 170 = 171 := by with_unfolding_all rfl
  have hfst : ((hexTiles 1 171).map Prod.fst).head? = some ((-84 : ℚ) / 171) := by
    rw [hexTiles171_eq]
    simp [tileX43_val]
  have hsnd : ((hexTiles 1 171).map Prod.snd).head? = some ((148 : ℚ) / 171) := by
    rw [hexTiles171_eq]
    simp [tileY11_val]
  have hne : hexTiles 1 171 ≠ [] := by
    intro habs
    rw [habs] at hfst
    simp at hfst
  have hlen : 1 ≤ (hexTiles 1 171).length := List.length_pos.mpr hne
  have h := repDrawLoop_head_once (2 * 1 / ((171 : ℕ) : ℚ)) 0 (199 / 200) [0, 0, 0]
    (hexTiles 1 171) ((-84 : ℚ) / 171) ((148 : ℚ) / 171) rfl hfst hsnd
  simp only [generateRepRandomOffsets]
  rw [hceil]
  have hcond : ¬(((hexTiles 1 171).length : ℤ) < ((1 : ℕ) : ℤ)) := by push_cast; omega
  rw [if_neg hcond, h]
  norm_num

/-! Bridge between the exact rational tests and the real inequalities they
decide. -/

theorem sqrt3_mul_nonneg_eq {t : ℝ} (ht : 0 ≤ t) :
    Real.sqrt 3 * t = Real.sqrt (3 * t ^ 2) := by
  rw [Real.sqrt_mul (by norm_num : (0 : ℝ) ≤ 3), Real.sqrt_sq ht]

theorem leSqrt3Mul_iff (q t : ℚ) :
    leSqrt3Mul q t = true ↔ (q : ℝ) ≤ Real.sqrt 3 * (t : ℝ) := by
  rcases le_or_lt 0 t with ht | ht
  · have htR : (0 : ℝ) ≤ (t : ℝ) := by exact_mod_cast ht
    rw [leSqrt3Mul, if_pos ht]
    simp only [Bool.or_eq_true, decide_eq_true_eq]
    rcases le_or_lt q 0 with hq | hq
    · have hqR : (q : ℝ) ≤ 0 := by exact_mod_cast hq
      simp only [hq, true_or, true_iff]
      exact hqR.trans (mul_nonneg (Real.sqrt_nonneg 3) htR)
    · have hqR : (0 : ℝ) < (q : ℝ) := by exact_mod_cast hq
      simp only [not_le.mpr hq, false_or]
      rw [sqrt3_mul_nonneg_eq htR, Real.le_sqrt hqR.le]
      constructor
      · intro h; exact_mod_cast h
      · intro h; exact_mod_cast h
      positivity
  · have htR : (t : ℝ) < 0 := by exact_mod_cast ht
    rw [leSqrt3Mul, if_neg (not_le.mpr ht)]
    simp only [Bool.and_eq_true, decide_eq_true_eq]
    have hneg : Real.sqrt 3 * (t : ℝ) < 0 :=
      mul_neg_of_pos_of_neg (Real.sqrt_pos.mpr (by norm_num)) htR
    have hkey : Real.sqrt 3 * (t : ℝ) = -Real.sqrt (3 * (t : ℝ) ^ 2) := by
      have h1 := sqrt3_mul_nonneg_eq (t := -(t : ℝ)) (by linarith)
      have h2 : (-(t : ℝ)) ^ 2 = (t : ℝ) ^ 2 := by ring
      rw [mul_neg, h2] at h1
      linarith
    constructor
    · rintro ⟨hq0, hsq⟩
      have hq0R : (q : ℝ) ≤ 0 := by exact_mod_cast hq0
      have hsqR : 3 * (t : ℝ) ^ 2 ≤ (q : ℝ) ^ 2 := by exact_mod_cast hsq
      rw [hkey, le_neg]
      have h3 : Real.sqrt (3 * (t : ℝ) ^ 2) ≤ Real.sqrt ((q : ℝ) ^ 2) :=
        Real.sqrt_le_sqrt hsqR
      rw [Real.sqrt_sq_eq_abs, abs_of_nonpos hq0R] at h3
      exact h3
    · intro h
      have hq0R : (q : ℝ) ≤ 0 := le_of_lt (lt_of_le_of_lt h hneg)
      refine ⟨by exact_mod_cast hq0R, ?_⟩
      rw [hkey, le_neg] at h
      have h2 : (Real.sqrt (3 * (t : ℝ) ^ 2)) ^ 2 ≤ (-(q : ℝ)) ^ 2 := by
        have h0 := Real.sqrt_nonneg (3 * (t : ℝ) ^ 2)
        nlinarith
      rw [Real.sq_sqrt (by positivity : (0 : ℝ) ≤ 3 * (t : ℝ) ^ 2)] at h2
      have h3 : 3 * (t : ℝ) ^ 2 ≤ (q : ℝ) ^ 2 := by nlinarith
      exact_mod_cast h3

theorem geSqrt3Mul_iff (q t : ℚ) :
    geSqrt3Mul q t = true ↔ Real.sqrt 3 * (t : ℝ) ≤ (q : ℝ) := by
  rw [geSqrt3Mul, leSqrt3Mul_iff]
  push_cast
  constructor <;> intro h <;> linarith

/-- The real half-plane conditions decided by the repulsive tile filter
(lines 210-215): containment (with boundary) in the flat-top hexagon of
scale `d`, written with `b = sqrt(3)*d`, `m = sqrt(3)`, `h = d*sqrt(3)/2`. -/
def InsideHexClosed (d x y : ℝ) : Prop :=
  y ≤ Real.sqrt 3 * (x + d) ∧ Real.sqrt 3 * (x - d) ≤ y ∧
  y ≤ Real.sqrt 3 * (d - x) ∧ Real.sqrt 3 * (-x - d) ≤ y ∧
  y ≤ Real.sqrt 3 * (d / 2) ∧ Real.sqrt 3 * (-(d / 2)) ≤ y

theorem insideHexB_iff (d x y : ℚ) :
    insideHexB d x y = true ↔ InsideHexClosed (d : ℝ) (x : ℝ) (y : ℝ) := by
  rw [insideHexB, InsideHexClosed]
  simp only [Bool.and_eq_true, leSqrt3Mul_iff, geSqrt3Mul_iff]
  push_cast
  tauto

/-- The strict half-plane conditions of the random-offset rejection filter
(lines 102-113): with `b = sqrt(3)*maxDither`, `m = sqrt(3)`,
`h = maxDither*sqrt(3)/2`, a candidate `(x, y)` is kept iff
`y < m*x+b ∧ y > m*x-b ∧ y < -m*x+b ∧ y > -m*x-b ∧ y < h ∧ y > -h`. -/
def InsideHexOpen (d x y : ℝ) : Prop :=
  y < Real.sqrt 3 * x + Real.sqrt 3 * d ∧ Real.sqrt 3 * x - Real.sqrt 3 * d < y ∧
  y < -(Real.sqrt 3 * x) + Real.sqrt 3 * d ∧ -(Real.sqrt 3 * x) - Real.sqrt 3 * d < y ∧
  y < d * Real.sqrt 3 / 2 ∧ -(d * Real.sqrt 3 / 2) < y

/-! Coordinate wrap. -/

/-- Python/numpy float modulo `x % y` (used as `ra % (2.0*np.pi)` at line 49):
for positive `y` this is `x - y*floor(x/y)`, which lies in `[0, y)`. -/
noncomputable def fmod (x y : ℝ) : ℝ := x - y * ⌊x / y⌋

/-- Embedding of `wrapRADec` (lines 36-50) on one element.  numpy first
reflects every entry with `dec < -pi/2` about the south pole
(`dec := -(pi+dec)`, `ra := ra - pi`), then recomputes the high mask on the
*updated* values and reflects entries with `dec > pi/2` about the north pole
(`dec := pi - dec`, `ra := ra - pi`), and finally reduces `ra` mod `2*pi`. -/
noncomputable def wrapDec1 (dec : ℝ) : ℝ :=
  if dec < -(Real.pi / 2) then -(Real.pi + dec) else dec

noncomputable def wrapRa1 (ra dec : ℝ) : ℝ :=
  if dec < -(Real.pi / 2) then ra - Real.pi else ra

noncomputable def wrapDec2 (dec1 : ℝ) : ℝ :=
  if dec1 > Real.pi / 2 then Real.pi - dec1 else dec1

noncomputable def wrapRa2 (ra1 dec1 : ℝ) : ℝ :=
  if dec1 > Real.pi / 2 then ra1 - Real.pi else ra1

noncomputable def wrapRADecPair (ra dec : ℝ) : ℝ × ℝ :=
  (fmod (wrapRa2 (wrapRa1 ra dec) (wrapDec1 dec)) (2 * Real.pi),
    wrapDec2 (wrapDec1 dec))

/-- Elementwise wrap of the two coordinate columns. -/
noncomputable def wrapRADecList (l : List (ℝ × ℝ)) : List (ℝ × ℝ) :=
  l.map fun p => wrapRADecPair p.1 p.2

theorem fmod_eq_fract (x : ℝ) {y : ℝ} (hy : y ≠ 0) :
    fmod x y = y * Int.fract (x / y) := by
  rw [fmod, Int.fract]
  field_simp

theorem fmod_nonneg (x : ℝ) {y : ℝ} (hy : 0 < y) : 0 ≤ fmod x y := by
  rw [fmod_eq_fract x hy.ne']
  exact mul_nonneg hy.le (Int.fract_nonneg _)

theorem fmod_lt (x : ℝ) {y : ℝ} (hy : 0 < y) : fmod x y < y := by
  rw [fmod_eq_fract x hy.ne']
  calc y * Int.fract (x / y) < y * 1 := mul_lt_mul_of_pos_left (Int.fract_lt_one _) hy
    _ = y := mul_one y

theorem fmod_eq_self {x y : ℝ} (hy : 0 < y) (h0 : 0 ≤ x) (h1 : x < y) :
    fmod x y = x := by
  have hz : ⌊x / y⌋ = 0 := by
    rw [Int.floor_eq_zero_iff, Set.mem_Ico]
    exact ⟨div_nonneg h0 hy.le, by rwa [div_lt_one hy]⟩
  rw [fmod, hz]
  push_cast
  ring

theorem wrapRADecPair_dec_range {dec : ℝ} (ra : ℝ)
    (hlo : -(5 * Real.pi / 2) ≤ dec) (hhi : dec ≤ 3 * Real.pi / 2) :
    -(Real.pi / 2) ≤ (wrapRADecPair ra dec).2 ∧
      (wrapRADecPair ra dec).2 ≤ Real.pi / 2 := by
  have hpi := Real.pi_pos
  rw [wrapRADecPair]
  simp only [wrapDec2, wrapDec1]
  by_cases h1 : dec < -(Real.pi / 2)
  · rw [if_pos h1]
    by_cases h2 : -(Real.pi + dec) > Real.pi / 2
    · rw [if_pos h2]; constructor <;> linarith
    · rw [if_neg h2]; constructor <;> linarith
  · rw [if_neg h1]
    by_cases h2 : dec > Real.pi / 2
    · rw [if_pos h2]; constructor <;> linarith
    · rw [if_neg h2]; constructor <;> linarith

theorem wrapRADecPair_ra_range (ra dec : ℝ) :
    0 ≤ (wrapRADecPair ra dec).1 ∧ (wrapRADecPair ra dec).1 < 2 * Real.pi := by
  have hpi := Real.pi_pos
  have h2pi : (0 : ℝ) < 2 * Real.pi := by linarith
  rw [wrapRADecPair]
  exact ⟨fmod_nonneg _ h2pi, fmod_lt _ h2pi⟩

/-- A pair already in range is a fixed point of the wrap. -/
theorem wrapRADecPair_fixed {ra dec : ℝ} (h1 : 0 ≤ ra) (h2 : ra < 2 * Real.pi)
    (h3 : -(Real.pi / 2) ≤ dec) (h4 : dec ≤ Real.pi / 2) :
    wrapRADecPair ra dec = (ra, dec) := by
  have hpi := Real.pi_pos
  rw [wrapRADecPair, wrapDec1, wrapRa1]
  rw [if_neg (by linarith : ¬(dec < -(Real.pi / 2)))]
  rw [if_neg (by linarith : ¬(dec < -(Real.pi / 2)))]
  rw [wrapDec2, wrapRa2]
  rw [if_neg (by linarith : ¬(dec > Real.pi / 2))]
  rw [if_neg (by linarith : ¬(dec > Real.pi / 2))]
  rw [fmod_eq_self (by linarith) h1 h2]

/-! The uniform-random-in-hexagon generator and the run-level embeddings. -/

open scoped Classical in
/-- Candidate points of `_generateRandomOffsets` (lines 94-100): radii
`sqrt(u)*maxDither` (area-uniform disk sampling) and angles `u'*pi*2` from
the two pre-drawn arrays, converted to Cartesian coordinates. -/
noncomputable def randomCandidates (d : ℝ) (radU thetaU : List ℝ) : List (ℝ × ℝ) :=
  List.zipWith (fun u v =>
    (Real.sqrt u * d * Real.cos (v * Real.pi * 2),
      Real.sqrt u * d * Real.sin (v * Real.pi * 2))) radU thetaU

open scoped Classical in
/-- The candidates surviving the strict hexagon rejection (lines 102-113). -/
noncomputable def acceptedOffsets (d : ℝ) (radU thetaU : List ℝ) : List (ℝ × ℝ) :=
  (randomCandidates d radU thetaU).filter fun p => decide (InsideHexOpen d p.1 p.2)

/-- Embedding of `RandomDitherFieldPerVisitStacker._generateRandomOffsets`
(lines 94-120): sample `2*noffsets` disk candidates, keep those strictly
inside the hexagon, and return the first `noffsets` accepted ones.  If fewer
survive, the source prints `'PROBLEM: not enough random points within the
hexagon'` and leaves `self.xOff`/`self.yOff` unset, so the run invocation
fails on the undefined attribute; the total embedding reports the condition
as `.error .insufficientYield`. -/
noncomputable def generateRandomOffsets (d : ℝ) (noffsets : ℕ) (radU thetaU : List ℝ) :
    Except DErr (List ℝ × List ℝ) :=
  if (acceptedOffsets d radU thetaU).length < noffsets then .error .insufficientYield
  else .ok ((((acceptedOffsets d radU thetaU).take noffsets).map Prod.fst),
    (((acceptedOffsets d radU thetaU).take noffsets).map Prod.snd))

/-- Model of the external `np.random` stream (an out-of-scope collaborator;
spec sections 5-6 only require a seedable deterministic stream): an infinite
sequence of draws and a cursor; `rand(k)` returns the next `k` values.
`np.random.seed(s)` replaces the whole state by a function of the seed
alone. -/
structure Rng where
  vals : ℕ → ℚ
  pos : ℕ

/-- Modelled from the spec: the seeded pseudo-random stream of the external
`np.random` generator (the spec only requires that seeding makes the stream a
deterministic function of the seed, applied once at the start of `run`); a
simple concrete stream with values among `0`, `1/4`, `1/2`, `3/4` stands in
for the Mersenne-Twister stream. -/
def seedVals (seed : ℕ) : ℕ → ℚ := fun i => (((seed + i) % 4 : ℕ) : ℚ) / 4

/-- The state of `np.random` immediately after `np.random.seed(s)`. -/
def seedRng (seed : ℕ) : Rng := ⟨seedVals seed, 0⟩

/-- Draw `k` values (`np.random.rand(k)`), advancing the cursor. -/
def randTake (g : Rng) (k : ℕ) : List ℚ × Rng :=
  (((List.range k).map fun i => g.vals (g.pos + i)), ⟨g.vals, g.pos + k⟩)

open scoped Classical in
/-- Application of one offset to one record (lines 132-136): the RA offset is
divided by `cos(dec)` with no guard in the source; at `cos(dec) = 0` numpy
produces a non-finite value, which the total embedding reports as
`.error .divByZero`; otherwise the dithered pair is wrapped. -/
noncomputable def applyOffset (rec : ℝ × ℝ) (off : ℝ × ℝ) : Except DErr (ℝ × ℝ) :=
  if Real.cos rec.2 = 0 then .error .divByZero
  else .ok (wrapRADecPair (rec.1 + off.1 / Real.cos rec.2) (rec.2 + off.2))

/-- Embedding of `RandomDitherFieldPerVisitStacker.run` (lines 122-137): seed
the global stream when `randomSeed` is configured (lines 124-125), draw the
`2n` radius and `2n` angle values, generate the offsets, and compute the two
dithered columns record by record with the `1/cos(dec)` correction and the
final wrap. -/
noncomputable def runRandomDitherFieldPerVisit (d : ℝ) (randomSeed : Option ℕ)
    (g : Rng) (batch : List (ℝ × ℝ)) : Except DErr (List (ℝ × ℝ)) :=
  let g0 := match randomSeed with | some s => seedRng s | none => g
  let n := batch.length
  let (radU, g1) := randTake g0 (2 * n)
  let (thetaU, _) := randTake g1 (2 * n)
  match generateRandomOffsets d n (radU.map fun q => (q : ℝ))
      (thetaU.map fun q => (q : ℝ)) with
  | .error e => .error e
  | .ok (xs, ys) => (batch.zip (xs.zip ys)).mapM fun rp => applyOffset rp.1 rp.2

/-- Embedding of `RepulsiveRandomDitherFieldPerVisitStacker.run`
(lines 280-295), with a rational `maxDither` (double-precision values are
rationals): seed when configured, draw the `3n` square-selection values and
`2n` jitter values, generate the repulsive offsets, and compute the dithered
columns. -/
noncomputable def runRepRandomDitherFieldPerVisit (d : ℚ) (randomSeed : Option ℕ)
    (g : Rng) (batch : List (ℝ × ℝ)) : Except DErr (List (ℝ × ℝ)) :=
  let g0 := match randomSeed with | some s => seedRng s | none => g
  let n := batch.length
  let (sqs, g1) := randTake g0 (3 * n)
  let (pts, _) := randTake g1 (2 * n)
  match generateRepRandomOffsets d n sqs pts with
  | .error e => .error e
  | .ok (offs, _) => (batch.zip offs).mapM fun rp =>
      applyOffset rp.1 ((rp.2.1 : ℝ), (rp.2.2 : ℝ))

/-! The equidistant-spiral generator. -/

/-- Embedding of `np.arange(start, stop, step)` for positive `step`: the
values `start + k*step` for `k < ceil((stop - start)/step)`. -/
noncomputable def arangeR (start stop step : ℝ) : List ℝ :=
  (List.range (⌈(stop - start) / step⌉.toNat)).map fun k : ℕ => start + (k : ℝ) * step

/-- Maximum of a list of reals (`arr.max()`); `0` for the empty list. -/
noncomputable def listMax (l : List ℝ) : ℝ := l.foldl max (l.headD 0)

/-- Minimum value of a list of reals (`diff.min()`); `0` for the empty
list. -/
noncomputable def minVal : List ℝ → ℝ
  | [] => 0
  | [x] => x
  | x :: y :: xs => min x (minVal (y :: xs))

/-- First index achieving the minimum: the tie-break of
`np.where(diff == diff.min())[0]` read into a scalar slot. -/
noncomputable def firstMinIdx : List ℝ → ℕ
  | [] => 0
  | [_] => 0
  | x :: y :: xs => if x ≤ minVal (y :: xs) then 0 else firstMinIdx (y :: xs) + 1

/-- Index of the fine-grid sample whose arc length is closest to the target
`ap` (first index on ties), lines 331-335. -/
noncomputable def matchIdx (arc : List ℝ) (ap : ℝ) : ℕ :=
  firstMinIdx (arc.map fun v => |v - ap|)

/-- The fine parameter grid `np.arange(0.0001, nCoils*np.pi*2., 0.001)` of
`_generateSpiralOffsets` (line 321). -/
noncomputable def spiralTheta (nCoils : ℕ) : List ℝ :=
  arangeR 0.0001 ((nCoils : ℝ) * Real.pi * 2) 0.001

/-- The spiral scale `a = 0.85*maxDither/theta.max()` (line 322). -/
noncomputable def spiralA (d : ℝ) (nCoils : ℕ) : ℝ :=
  0.85 * d / listMax (spiralTheta nCoils)

/-- The analytic arc length of the Archimedean spiral (line 325). -/
noncomputable def arcLen (a θ : ℝ) : ℝ :=
  a / 2 * (θ * Real.sqrt (1 + θ ^ 2) + Real.log (θ + Real.sqrt (1 + θ ^ 2)))

/-- Embedding of `SpiralDitherFieldPerVisitStacker._generateSpiralOffsets`
(lines 319-338): a fine Archimedean spiral `r = theta*a` scaled so the
largest radius is `0.85*maxDither`; `numPoints` equidistant arc-length
targets `np.arange(0, arc.max(), arc.max()/numPoints)` (truncated to
`numPoints` entries); each target resolved to the first fine-grid index
minimising the absolute arc-length difference; the selected polar samples
converted to Cartesian offsets. -/
noncomputable def generateSpiralOffsets (d : ℝ) (numPoints nCoils : ℕ) :
    List ℝ × List ℝ :=
  let θl := spiralTheta nCoils
  let a := spiralA d nCoils
  let r := θl.map fun θ => θ * a
  let arc := θl.map (arcLen a)
  let stepsize := listMax arc / numPoints
  let arcpts := (arangeR 0 (listMax arc) stepsize).take numPoints
  let rpts := arcpts.map fun ap => r.getD (matchIdx arc ap) 0
  let θpts := arcpts.map fun ap => θl.getD (matchIdx arc ap) 0
  (List.zipWith (fun rv θv => rv * Real.cos θv) rpts θpts,
    List.zipWith (fun rv θv => rv * Real.sin θv) rpts θpts)

theorem foldl_max_init_le (init : ℝ) (l : List ℝ) : init ≤ l.foldl max init := by
  induction l generalizing init with
  | nil => exact le_refl _
  | cons a l ih => exact le_trans (le_max_left init a) (ih (max init a))

theorem foldl_max_le_of_mem {x : ℝ} {l : List ℝ} (hx : x ∈ l) (init : ℝ) :
    x ≤ l.foldl max init := by
  induction l generalizing init with
  | nil => cases hx
  | cons a l ih =>
    rcases List.mem_cons.mp hx with rfl | hx'
    · exact le_trans (le_max_right init x) (foldl_max_init_le _ _)
    · exact ih hx' _

theorem foldl_max_mem (init : ℝ) (l : List ℝ) :
    l.foldl max init = init ∨ l.foldl max init ∈ l := by
  induction l generalizing init with
  | nil => exact Or.inl rfl
  | cons a l ih =>
    rcases ih (max init a) with h | h
    · rcases le_total init a with hle | hle
      · right
        rw [List.foldl_cons, h, max_eq_right hle]
        exact List.mem_cons_self _ _
      · left
        rw [List.foldl_cons, h, max_eq_left hle]
    · right
      exact List.mem_cons_of_mem _ h

theorem le_listMax {l : List ℝ} {x : ℝ} (hx : x ∈ l) : x ≤ listMax l :=
  foldl_max_le_of_mem hx _

theorem listMax_mem {l : List ℝ} (h : l ≠ []) : listMax l ∈ l := by
  rcases foldl_max_mem (l.headD 0) l with h1 | h1
  · rw [listMax, h1]
    cases l with
    | nil => exact absurd rfl h
    | cons a as => simp
  · exact h1

theorem minVal_le_of_mem : ∀ {l : List ℝ} {x : ℝ}, x ∈ l → minVal l ≤ x
  | [], _, hz => absurd hz (by simp)
  | [x], z, hz => by
    simp only [List.mem_singleton] at hz
    simp [minVal, hz]
  | x :: y :: xs, z, hz => by
    show min x (minVal (y :: xs)) ≤ z
    rcases List.mem_cons.mp hz with rfl | hz'
    · exact min_le_left _ _
    · exact le_trans (min_le_right _ _) (minVal_le_of_mem hz')

theorem firstMinIdx_lt_length : ∀ {l : List ℝ}, l ≠ [] → firstMinIdx l < l.length
  | [], h => absurd rfl h
  | [_], _ => by simp [firstMinIdx]
  | x :: y :: xs, _ => by
    show (if x ≤ minVal (y :: xs) then 0 else firstMinIdx (y :: xs) + 1) <
      (x :: y :: xs).length
    by_cases hx : x ≤ minVal (y :: xs)
    · rw [if_pos hx]
      simp
    · rw [if_neg hx]
      have := firstMinIdx_lt_length (l := y :: xs) (by simp)
      simp only [List.length_cons] at this ⊢
      omega

theorem getD_firstMinIdx : ∀ {l : List ℝ}, l ≠ [] → l.getD (firstMinIdx l) 0 = minVal l
  | [], h => absurd rfl h
  | [x], _ => by simp [firstMinIdx, minVal]
  | x :: y :: xs, _ => by
    show (x :: y :: xs).getD
      (if x ≤ minVal (y :: xs) then 0 else firstMinIdx (y :: xs) + 1) 0 =
      min x (minVal (y :: xs))
    by_cases hx : x ≤ minVal (y :: xs)
    · rw [if_pos hx, min_eq_left hx]
      rfl
    · push_neg at hx
      rw [if_neg (not_le.mpr hx), min_eq_right hx.le]
      have := getD_firstMinIdx (l := y :: xs) (by simp)
      simpa using this

theorem lt_of_lt_firstMinIdx : ∀ {l : List ℝ} {j : ℕ},
    j < firstMinIdx l → minVal l < l.getD j 0
  | [], j, h => by simp [firstMinIdx] at h
  | [_], j, h => by simp [firstMinIdx] at h
  | x :: y :: xs, j, h => by
    by_cases hx : x ≤ minVal (y :: xs)
    · rw [show firstMinIdx (x :: y :: xs) =
        (if x ≤ minVal (y :: xs) then 0 else firstMinIdx (y :: xs) + 1) from rfl,
        if_pos hx] at h
      cases h
    · push_neg at hx
      rw [show firstMinIdx (x :: y :: xs) =
        (if x ≤ minVal (y :: xs) then 0 else firstMinIdx (y :: xs) + 1) from rfl,
        if_neg (not_le.mpr hx)] at h
      have hmv : minVal (x :: y :: xs) = minVal (y :: xs) := by
        show min x (minVal (y :: xs)) = minVal (y :: xs)
        exact min_eq_right hx.le
      cases j with
      | zero => rw [hmv]; simpa using hx
      | succ j' =>
        rw [hmv]
        have hj' : j' < firstMinIdx (y :: xs) := by omega
        simpa using lt_of_lt_firstMinIdx hj'

theorem abs_dist_lt_of_mid {u v t : ℝ} (huv : u < v) (h : u + v < 2 * t) :
    |v - t| < |u - t| := by
  have h2 : (v - t) ^ 2 < (u - t) ^ 2 := by nlinarith
  have h3 : |v - t| ^ 2 < |u - t| ^ 2 := by rwa [sq_abs, sq_abs]
  by_contra hc
  push_neg at hc
  have := pow_le_pow_left₀ (abs_nonneg (u - t)) hc 2
  linarith

theorem mid_lt_of_abs_dist {u v t : ℝ} (huv : u < v) (h : |v - t| < |u - t|) :
    u + v < 2 * t := by
  have h2 : |v - t| ^ 2 < |u - t| ^ 2 := by
    have := pow_lt_pow_left₀ h (abs_nonneg (v - t)) two_ne_zero
    exact this
  rw [sq_abs, sq_abs] at h2
  nlinarith

theorem getD_map_abs (arc : List ℝ) (t : ℝ) {j : ℕ} (hj : j < arc.length) :
    (arc.map fun v => |v - t|).getD j 0 = |arc.getD j 0 - t| := by
  rw [List.getD_eq_getElem?_getD, List.getElem?_map]
  rw [List.getElem?_eq_getElem hj]
  rw [List.getD_eq_getElem?_getD, List.getElem?_eq_getElem hj]
  rfl

theorem getD_mem {l : List ℝ} {j : ℕ} (hj : j < l.length) : l.getD j 0 ∈ l := by
  rw [List.getD_eq_getElem?_getD, List.getElem?_eq_getElem hj]
  exact List.getElem_mem hj

theorem matchIdx_mono {arc : List ℝ}
    (hm : ∀ i j, i < j → j < arc.length → arc.getD i 0 < arc.getD j 0)
    {ap aq : ℝ} (hle : ap ≤ aq) : matchIdx arc ap ≤ matchIdx arc aq := by
  by_contra hcon
  push_neg at hcon
  have harcne : arc ≠ [] := by
    intro h
    rw [h] at hcon
    simp [matchIdx, firstMinIdx] at hcon
  have hdlne : (arc.map fun v => |v - ap|) ≠ [] := by simpa using harcne
  have hdlne' : (arc.map fun v => |v - aq|) ≠ [] := by simpa using harcne
  have hmlt : matchIdx arc ap < arc.length := by
    have := firstMinIdx_lt_length hdlne
    simpa [matchIdx] using this
  have hmlt' : matchIdx arc aq < arc.length := lt_trans hcon hmlt
  have huv : arc.getD (matchIdx arc aq) 0 < arc.getD (matchIdx arc ap) 0 :=
    hm _ _ hcon hmlt
  have h1 : minVal (arc.map fun v => |v - ap|) <
      (arc.map fun v => |v - ap|).getD (matchIdx arc aq) 0 :=
    lt_of_lt_firstMinIdx hcon
  have h2 : (arc.map fun v => |v - ap|).getD (matchIdx arc ap) 0 =
      minVal (arc.map fun v => |v - ap|) := getD_firstMinIdx hdlne
  have h3 : (arc.map fun v => |v - aq|).getD (matchIdx arc aq) 0 =
      minVal (arc.map fun v => |v - aq|) := getD_firstMinIdx hdlne'
  have h4 : minVal (arc.map fun v => |v - aq|) ≤
      (arc.map fun v => |v - aq|).getD (matchIdx arc ap) 0 :=
    minVal_le_of_mem (getD_mem (by simpa using hmlt))
  rw [getD_map_abs arc ap hmlt] at h2
  rw [getD_map_abs arc ap hmlt'] at h1
  rw [getD_map_abs arc aq hmlt'] at h3
  rw [getD_map_abs arc aq hmlt] at h4
  rw [← h2] at h1
  rw [← h3] at h4
  have hmid : arc.getD (matchIdx arc aq) 0 + arc.getD (matchIdx arc ap) 0 < 2 * ap :=
    mid_lt_of_abs_dist huv h1
  have : |arc.getD (matchIdx arc ap) 0 - aq| < |arc.getD (matchIdx arc aq) 0 - aq| :=
    abs_dist_lt_of_mid huv (by linarith)
  linarith

theorem getD_map_of_lt (f : ℝ → ℝ) (l : List ℝ) {j : ℕ} (hj : j < l.length) :
    (l.map f).getD j 0 = f (l.getD j 0) := by
  rw [List.getD_eq_getElem?_getD, List.getElem?_map, List.getElem?_eq_getElem hj,
    List.getD_eq_getElem?_getD, List.getElem?_eq_getElem hj]
  rfl

theorem arangeR_getD {s e st : ℝ} {k : ℕ} (hk : k < (arangeR s e st).length) :
    (arangeR s e st).getD k 0 = s + k * st := by
  rw [arangeR] at hk ⊢
  rw [List.length_map, List.length_range] at hk
  rw [List.getD_eq_getElem?_getD, List.getElem?_map, List.getElem?_range hk]
  rfl

theorem spiralTheta_mem_pos {nCoils : ℕ} {x : ℝ} (hx : x ∈ spiralTheta nCoils) :
    0 < x := by
  rw [spiralTheta, arangeR] at hx
  obtain ⟨k, _, rfl⟩ := List.mem_map.mp hx
  positivity

theorem spiralTheta_strictMono {nCoils : ℕ} : ∀ i j, i < j →
    j < (spiralTheta nCoils).length →
    (spiralTheta nCoils).getD i 0 < (spiralTheta nCoils).getD j 0 := by
  intro i j hij hj
  rw [spiralTheta] at hj ⊢
  rw [arangeR_getD (lt_trans hij hj), arangeR_getD hj]
  have hc : (i : ℝ) < (j : ℝ) := by exact_mod_cast hij
  have := mul_lt_mul_of_pos_right hc (by norm_num : (0 : ℝ) < 0.001)
  linarith

theorem spiralTheta_ne_nil {nCoils : ℕ} (h : 1 ≤ nCoils) : spiralTheta nCoils ≠ [] := by
  have hpi := Real.pi_gt_three
  have h1 : (1 : ℝ) ≤ (nCoils : ℝ) := by exact_mod_cast h
  have hx : (0 : ℝ) < ((nCoils : ℝ) * Real.pi * 2 - 0.0001) / 0.001 := by
    apply div_pos _ (by norm_num)
    nlinarith
  have hceil : 0 < ⌈((nCoils : ℝ) * Real.pi * 2 - 0.0001) / 0.001⌉ := Int.ceil_pos.mpr hx
  rw [spiralTheta, arangeR]
  intro habs
  have hlen := congrArg List.length habs
  rw [List.length_map, List.length_range] at hlen
  simp only [List.length_nil] at hlen
  omega

theorem spiralTheta_listMax_pos {nCoils : ℕ} (h : 1 ≤ nCoils) :
    0 < listMax (spiralTheta nCoils) :=
  spiralTheta_mem_pos (listMax_mem (spiralTheta_ne_nil h))

theorem spiralA_pos {d : ℝ} {nCoils : ℕ} (hd : 0 < d) (h : 1 ≤ nCoils) :
    0 < spiralA d nCoils := by
  rw [spiralA]
  exact div_pos (by linarith) (spiralTheta_listMax_pos h)

theorem sqrt_one_add_sq_gt_one {x : ℝ} (hx : 0 < x) : 1 < Real.sqrt (1 + x ^ 2) := by
  have h1 : (1 : ℝ) < 1 + x ^ 2 := by nlinarith
  calc (1 : ℝ) = Real.sqrt 1 := (Real.sqrt_one).symm
    _ < Real.sqrt (1 + x ^ 2) := Real.sqrt_lt_sqrt (by norm_num) h1

theorem arcLen_pos {a x : ℝ} (ha : 0 < a) (hx : 0 < x) : 0 < arcLen a x := by
  rw [arcLen]
  have h1 : 1 < Real.sqrt (1 + x ^ 2) := sqrt_one_add_sq_gt_one hx
  have h2 : 0 < x * Real.sqrt (1 + x ^ 2) := by positivity
  have h3 : 0 < Real.log (x + Real.sqrt (1 + x ^ 2)) :=
    Real.log_pos (by linarith)
  positivity

theorem arcLen_strictMono {a : ℝ} (ha : 0 < a) {x y : ℝ} (hx : 0 < x) (hxy : x < y) :
    arcLen a x < arcLen a y := by
  rw [arcLen, arcLen]
  have hy : 0 < y := lt_trans hx hxy
  have h1 : Real.sqrt (1 + x ^ 2) < Real.sqrt (1 + y ^ 2) :=
    Real.sqrt_lt_sqrt (by positivity) (by nlinarith)
  have hsx : 0 < Real.sqrt (1 + x ^ 2) := Real.sqrt_pos.mpr (by positivity)
  have hterm1 : x * Real.sqrt (1 + x ^ 2) < y * Real.sqrt (1 + y ^ 2) := by nlinarith
  have hpos : 0 < x + Real.sqrt (1 + x ^ 2) := by positivity
  have hterm2 := Real.log_lt_log hpos (by linarith :
    x + Real.sqrt (1 + x ^ 2) < y + Real.sqrt (1 + y ^ 2))
  have := mul_lt_mul_of_pos_left
    (add_lt_add hterm1 hterm2) (by linarith : (0 : ℝ) < a / 2)
  linarith

theorem spiralArc_strictMono {d : ℝ} {nCoils : ℕ} (hd : 0 < d) (hnc : 1 ≤ nCoils) :
    ∀ i j, i < j → j < ((spiralTheta nCoils).map (arcLen (spiralA d nCoils))).length →
    ((spiralTheta nCoils).map (arcLen (spiralA d nCoils))).getD i 0 <
      ((spiralTheta nCoils).map (arcLen (spiralA d nCoils))).getD j 0 := by
  intro i j hij hj
  rw [List.length_map] at hj
  rw [getD_map_of_lt _ _ (lt_trans hij hj), getD_map_of_lt _ _ hj]
  exact arcLen_strictMono (spiralA_pos hd hnc)
    (spiralTheta_mem_pos (getD_mem (lt_trans hij hj)))
    (spiralTheta_strictMono i j hij hj)

/-- The fine arc-length samples `arc` of `_generateSpiralOffsets` (line 325). -/
noncomputable def spiralArc (d : ℝ) (nC : ℕ) : List ℝ :=
  (spiralTheta nC).map (arcLen (spiralA d nC))

/-- The equidistant arc-length targets `arcpts` (lines 328-329). -/
noncomputable def spiralArcPts (d : ℝ) (nP nC : ℕ) : List ℝ :=
  (arangeR 0 (listMax (spiralArc d nC)) (listMax (spiralArc d nC) / nP)).take nP

/-- The fine-grid index selected for output slot `i` (lines 330-335). -/
noncomputable def spiralSel (d : ℝ) (nP nC : ℕ) (i : ℕ) : ℕ :=
  matchIdx (spiralArc d nC) ((spiralArcPts d nP nC).getD i 0)

theorem generateSpiralOffsets_eq (d : ℝ) (nP nC : ℕ) :
    generateSpiralOffsets d nP nC =
      (List.zipWith (fun rv θv => rv * Real.cos θv)
        ((spiralArcPts d nP nC).map fun ap =>
          (((spiralTheta nC).map fun θ => θ * spiralA d nC).getD
            (matchIdx (spiralArc d nC) ap) 0))
        ((spiralArcPts d nP nC).map fun ap =>
          ((spiralTheta nC).getD (matchIdx (spiralArc d nC) ap) 0)),
      List.zipWith (fun rv θv => rv * Real.sin θv)
        ((spiralArcPts d nP nC).map fun ap =>
          (((spiralTheta nC).map fun θ => θ * spiralA d nC).getD
            (matchIdx (spiralArc d nC) ap) 0))
        ((spiralArcPts d nP nC).map fun ap =>
          ((spiralTheta nC).getD (matchIdx (spiralArc d nC) ap) 0))) := rfl

theorem getD_take : ∀ (l : List ℝ) (n i : ℕ), i < n → (l.take n).getD i 0 = l.getD i 0
  | _, 0, _, h => absurd h (Nat.not_lt_zero _)
  | [], _ + 1, _, _ => by simp
  | x :: xs, _ + 1, 0, _ => by simp
  | x :: xs, n + 1, i + 1, h => by
    simp only [List.take_succ_cons, List.getD_cons_succ]
    exact getD_take xs n i (Nat.lt_of_succ_lt_succ h)

theorem getD_zipWith (f : ℝ → ℝ → ℝ) : ∀ (l1 l2 : List ℝ) (i : ℕ),
    i < l1.length → i < l2.length →
    (List.zipWith f l1 l2).getD i 0 = f (l1.getD i 0) (l2.getD i 0)
  | [], _, _, h1, _ => absurd h1 (by simp at h1 ⊢)
  | _ :: _, [], _, _, h2 => absurd h2 (by simp at h2 ⊢)
  | x :: xs, y :: ys, 0, _, _ => by simp [List.zipWith]
  | x :: xs, y :: ys, i + 1, h1, h2 => by
    simp only [List.zipWith_cons_cons, List.getD_cons_succ]
    exact getD_zipWith f xs ys i
      (Nat.lt_of_succ_lt_succ (by simpa using h1))
      (Nat.lt_of_succ_lt_succ (by simpa using h2))

theorem spiralArc_ne_nil {d : ℝ} {nC : ℕ} (hnc : 1 ≤ nC) : spiralArc d nC ≠ [] := by
  rw [spiralArc]
  simpa using spiralTheta_ne_nil hnc

theorem spiralArc_listMax_pos {d : ℝ} {nC : ℕ} (hd : 0 < d) (hnc : 1 ≤ nC) :
    0 < listMax (spiralArc d nC) := by
  obtain ⟨θ, hθ, heq⟩ := List.mem_map.mp
    (by rw [spiralArc] at *; exact listMax_mem (spiralArc_ne_nil hnc) :
      listMax (spiralArc d nC) ∈ (spiralTheta nC).map (arcLen (spiralA d nC)))
  rw [← heq]
  exact arcLen_pos (spiralA_pos hd hnc) (spiralTheta_mem_pos hθ)

theorem spiralArange_length {d : ℝ} {nP nC : ℕ} (hd : 0 < d)
    (hnc : 1 ≤ nC) : (arangeR 0 (listMax (spiralArc d nC))
      (listMax (spiralArc d nC) / nP)).length = nP := by
  have hM := spiralArc_listMax_pos hd hnc
  rw [arangeR, List.length_map, List.length_range]
  have hq : (listMax (spiralArc d nC) - 0) /
      (listMax (spiralArc d nC) / (nP : ℝ)) = (nP : ℝ) := by
    rw [sub_zero, div_div_eq_mul_div, mul_comm (listMax (spiralArc d nC)) ((nP : ℝ)),
      mul_div_assoc, div_self hM.ne', mul_one]
  rw [hq]
  rw [Int.ceil_natCast]
  simp

theorem spiralArcPts_length {d : ℝ} {nP nC : ℕ} (hd : 0 < d) (hnp : 1 ≤ nP)
    (hnc : 1 ≤ nC) : (spiralArcPts d nP nC).length = nP := by
  rw [spiralArcPts, List.length_take, spiralArange_length hd hnc, min_self]

theorem spiralArcPts_getD {d : ℝ} {nP nC : ℕ} (hd : 0 < d) (hnp : 1 ≤ nP)
    (hnc : 1 ≤ nC) {i : ℕ} (hi : i < nP) :
    (spiralArcPts d nP nC).getD i 0 = (i : ℝ) * (listMax (spiralArc d nC) / nP) := by
  have hlen := @spiralArange_length d nP nC hd hnc
  rw [spiralArcPts, getD_take _ _ _ hi, arangeR_getD (by rw [hlen]; exact hi)]
  ring

theorem spiralSel_lt {d : ℝ} {nP nC : ℕ} (hnc : 1 ≤ nC) (i : ℕ) :
    spiralSel d nP nC i < (spiralTheta nC).length := by
  have harcne : spiralArc d nC ≠ [] := spiralArc_ne_nil hnc
  have h1 : ((spiralArc d nC).map fun v =>
      |v - (spiralArcPts d nP nC).getD i 0|) ≠ [] := by simpa using harcne
  have := firstMinIdx_lt_length h1
  rw [List.length_map] at this
  rw [spiralSel, matchIdx]
  rw [spiralArc, List.length_map] at this
  exact this

theorem spiralTheta_getD_mono {nC : ℕ} {i j : ℕ} (hij : i ≤ j)
    (hj : j < (spiralTheta nC).length) :
    (spiralTheta nC).getD i 0 ≤ (spiralTheta nC).getD j 0 := by
  rcases lt_or_eq_of_le hij with h | h
  · exact (spiralTheta_strictMono i j h hj).le
  · rw [h]

theorem spiralSel_mono {d : ℝ} {nP nC : ℕ} (hd : 0 < d) (hnp : 1 ≤ nP)
    (hnc : 1 ≤ nC) {i j : ℕ} (hij : i ≤ j) (hj : j < nP) :
    spiralSel d nP nC i ≤ spiralSel d nP nC j := by
  rw [spiralSel, spiralSel]
  apply matchIdx_mono
  · intro u v huv hv
    rw [spiralArc] at hv ⊢
    exact spiralArc_strictMono hd hnc u v huv hv
  · rw [spiralArcPts_getD hd hnp hnc (lt_of_le_of_lt hij hj),
      spiralArcPts_getD hd hnp hnc hj]
    have hst : 0 ≤ listMax (spiralArc d nC) / (nP : ℝ) :=
      le_of_lt (div_pos (spiralArc_listMax_pos hd hnc)
        (by exact_mod_cast hnp : (0 : ℝ) < (nP : ℝ)))
    have : (i : ℝ) ≤ (j : ℝ) := by exact_mod_cast hij
    exact mul_le_mul_of_nonneg_right this hst

theorem spiral_radius_eq {d : ℝ} {nP nC : ℕ} (hd : 0 < d) (hnp : 1 ≤ nP)
    (hnc : 1 ≤ nC) {i : ℕ} (hi : i < nP) :
    Real.sqrt ((generateSpiralOffsets d nP nC).1.getD i 0 ^ 2 +
      (generateSpiralOffsets d nP nC).2.getD i 0 ^ 2) =
      (spiralTheta nC).getD (spiralSel d nP nC i) 0 * spiralA d nC := by
  have hlen := @spiralArcPts_length d nP nC hd hnp hnc
  have hi1 : i < ((spiralArcPts d nP nC).map fun ap =>
      (((spiralTheta nC).map fun θ => θ * spiralA d nC).getD
        (matchIdx (spiralArc d nC) ap) 0)).length := by
    rw [List.length_map, hlen]; exact hi
  have hi2 : i < ((spiralArcPts d nP nC).map fun ap =>
      ((spiralTheta nC).getD (matchIdx (spiralArc d nC) ap) 0)).length := by
    rw [List.length_map, hlen]; exact hi
  have hi0 : i < (spiralArcPts d nP nC).length := by rw [hlen]; exact hi
  have hsel := @spiralSel_lt d nP nC hnc i
  have hrv : (((spiralTheta nC).map fun θ => θ * spiralA d nC).getD
      (spiralSel d nP nC i) 0) =
      (spiralTheta nC).getD (spiralSel d nP nC i) 0 * spiralA d nC :=
    getD_map_of_lt _ _ hsel
  have hθpos : 0 < (spiralTheta nC).getD (spiralSel d nP nC i) 0 :=
    spiralTheta_mem_pos (getD_mem hsel)
  have hrvpos : 0 ≤ (spiralTheta nC).getD (spiralSel d nP nC i) 0 * spiralA d nC :=
    le_of_lt (mul_pos hθpos (spiralA_pos hd hnc))
  rw [generateSpiralOffsets_eq]
  rw [show ((List.zipWith (fun rv θv => rv * Real.cos θv)
        ((spiralArcPts d nP nC).map fun ap =>
          (((spiralTheta nC).map fun θ => θ * spiralA d nC).getD
            (matchIdx (spiralArc d nC) ap) 0))
        ((spiralArcPts d nP nC).map fun ap =>
          ((spiralTheta nC).getD (matchIdx (spiralArc d nC) ap) 0)),
      List.zipWith (fun rv θv => rv * Real.sin θv)
        ((spiralArcPts d nP nC).map fun ap =>
          (((spiralTheta nC).map fun θ => θ * spiralA d nC).getD
            (matchIdx (spiralArc d nC) ap) 0))
        ((spiralArcPts d nP nC).map fun ap =>
          ((spiralTheta nC).getD (matchIdx (spiralArc d nC) ap) 0))) :
        List ℝ × List ℝ).1 = List.zipWith (fun rv θv => rv * Real.cos θv)
        ((spiralArcPts d nP nC).map fun ap =>
          (((spiralTheta nC).map fun θ => θ * spiralA d nC).getD
            (matchIdx (spiralArc d nC) ap) 0))
        ((spiralArcPts d nP nC).map fun ap =>
          ((spiralTheta nC).getD (matchIdx (spiralArc d nC) ap) 0)) from rfl]
  rw [show ((List.zipWith (fun rv θv => rv * Real.cos θv)
        ((spiralArcPts d nP nC).map fun ap =>
          (((spiralTheta nC).map fun θ => θ * spiralA d nC).getD
            (matchIdx (spiralArc d nC) ap) 0))
        ((spiralArcPts d nP nC).map fun ap =>
          ((spiralTheta nC).getD (matchIdx (spiralArc d nC) ap) 0)),
      List.zipWith (fun rv θv => rv * Real.sin θv)
        ((spiralArcPts d nP nC).map fun ap =>
          (((spiralTheta nC).map fun θ => θ * spiralA d nC).getD
            (matchIdx (spiralArc d nC) ap) 0))
        ((spiralArcPts d nP nC).map fun ap =>
          ((spiralTheta nC).getD (matchIdx (spiralArc d nC) ap) 0))) :
        List ℝ × List ℝ).2 = List.zipWith (fun rv θv => rv * Real.sin θv)
        ((spiralArcPts d nP nC).map fun ap =>
          (((spiralTheta nC).map fun θ => θ * spiralA d nC).getD
            (matchIdx (spiralArc d nC) ap) 0))
        ((spiralArcPts d nP nC).map fun ap =>
          ((spiralTheta nC).getD (matchIdx (spiralArc d nC) ap) 0)) from rfl]
  rw [getD_zipWith _ _ _ _ hi1 hi2, getD_zipWith _ _ _ _ hi1 hi2]
  rw [getD_map_of_lt _ _ hi0, getD_map_of_lt _ _ hi0]
  rw [← spiralSel, hrv]
  set rv := (spiralTheta nC).getD (spiralSel d nP nC i) 0 * spiralA d nC
  set tv := (spiralTheta nC).getD (spiralSel d nP nC i) 0
  have hsq : rv * Real.cos tv ^ 1 ^ 1 = rv * Real.cos tv := by ring
  have : (rv * Real.cos tv) ^ 2 + (rv * Real.sin tv) ^ 2 = rv ^ 2 := by
    have hpyth := Real.sin_sq_add_cos_sq tv
    nlinarith [hpyth]
  rw [this, Real.sqrt_sq hrvpos]

/-- C6: for every `numPoints ≥ 1`, `nCoils ≥ 1` and `maxDither > 0`, the
spiral generator emits exactly `numPoints` x- and y-offsets, the radii
`sqrt(x_i^2 + y_i^2)` are non-decreasing in emission order, and every radius
is at most `0.85*maxDither`. -/
theorem C6_spiral_radii (d : ℝ) (numPoints nCoils : ℕ)
    (hd : 0 < d) (hnp : 1 ≤ numPoints) (hnc : 1 ≤ nCoils) :
    (generateSpiralOffsets d numPoints nCoils).1.length = numPoints ∧
    (generateSpiralOffsets d numPoints nCoils).2.length = numPoints ∧
    (∀ i j, i ≤ j → j < numPoints →
      Real.sqrt ((generateSpiralOffsets d numPoints nCoils).1.getD i 0 ^ 2 +
          (generateSpiralOffsets d numPoints nCoils).2.getD i 0 ^ 2) ≤
        Real.sqrt ((generateSpiralOffsets d numPoints nCoils).1.getD j 0 ^ 2 +
          (generateSpiralOffsets d numPoints nCoils).2.getD j 0 ^ 2)) ∧
    ∀ i, i < numPoints →
      Real.sqrt ((generateSpiralOffsets d numPoints nCoils).1.getD i 0 ^ 2 +
          (generateSpiralOffsets d numPoints nCoils).2.getD i 0 ^ 2) ≤
        0.85 * d := by
  have hlen := @spiralArcPts_length d numPoints nCoils hd hnp hnc
  refine ⟨?_, ?_, ?_, ?_⟩
  · rw [generateSpiralOffsets_eq]
    simp only [List.length_zipWith, List.length_map, hlen, min_self]
  · rw [generateSpiralOffsets_eq]
    simp only [List.length_zipWith, List.length_map, hlen, min_self]
  · intro i j hij hj
    rw [spiral_radius_eq hd hnp hnc (lt_of_le_of_lt hij hj),
      spiral_radius_eq hd hnp hnc hj]
    have hsel := spiralSel_mono hd hnp hnc hij hj
    have hjlt := @spiralSel_lt d numPoints nCoils hnc j
    exact mul_le_mul_of_nonneg_right (spiralTheta_getD_mono hsel hjlt)
      (spiralA_pos hd hnc).le
  · intro i hi
    rw [spiral_radius_eq hd hnp hnc hi]
    have hsel := @spiralSel_lt d numPoints nCoils hnc i
    have hle : (spiralTheta nCoils).getD (spiralSel d numPoints nCoils i) 0 ≤
        listMax (spiralTheta nCoils) := le_listMax (getD_mem hsel)
    have hM := spiralTheta_listMax_pos hnc
    calc (spiralTheta nCoils).getD (spiralSel d numPoints nCoils i) 0 *
          spiralA d nCoils
        ≤ listMax (spiralTheta nCoils) * spiralA d nCoils :=
          mul_le_mul_of_nonneg_right hle (spiralA_pos hd hnc).le
      _ = 0.85 * d := by rw [spiralA, mul_comm, div_mul_cancel₀ _ hM.ne']

/-- Witness for C6 at `maxDither = 1`, `numPoints = 1`, `nCoils = 1`. -/
theorem C6_spiral_radii_witness :
    (0 : ℝ) < 1 ∧ 1 ≤ 1 ∧
      ((generateSpiralOffsets 1 1 1).1.length = 1 ∧
      (generateSpiralOffsets 1 1 1).2.length = 1 ∧
      (∀ i j, i ≤ j → j < 1 →
        Real.sqrt ((generateSpiralOffsets 1 1 1).1.getD i 0 ^ 2 +
            (generateSpiralOffsets 1 1 1).2.getD i 0 ^ 2) ≤
          Real.sqrt ((generateSpiralOffsets 1 1 1).1.getD j 0 ^ 2 +
            (generateSpiralOffsets 1 1 1).2.getD j 0 ^ 2)) ∧
      ∀ i, i < 1 →
        Real.sqrt ((generateSpiralOffsets 1 1 1).1.getD i 0 ^ 2 +
            (generateSpiralOffsets 1 1 1).2.getD i 0 ^ 2) ≤
          0.85 * 1) :=
  ⟨by norm_num, le_rfl, C6_spiral_radii 1 1 1 (by norm_num) le_rfl le_rfl⟩

/-! The sequential hexagonal lattice generator. -/

/-- `vert_in_row[i]` of `SequentialHexDitherFieldPerVisitStacker._generateHexOffsets`
(lines 377-403) for row index `i ∈ 0..16`: the source initialises
`vert_in_row = np.arange(-8, 9)` and overwrites entry `i` (negative Python
indices land on entries `9..16`) with `(nrows+1) - abs(nid_row[i])`; in both
index regimes the stored value at position `i` is `17 - |i - 8|` (for
`i ≤ 8` the loop pass with index `i` writes `17 - |−8+i|`; for `i ≥ 9` the
pass with index `i - 17` writes `17 - |nid_row[i]| = 17 - (i - 8)`). -/
def vertInRow (i : ℕ) : ℕ := 17 - ((i : ℤ) - 8).natAbs

/-- Embedding of the double loop of `_generateHexOffsets` (lines 398-401):
row `i` contributes `vert_in_row[i]` points with
`x = dith_size_x * (j - (vert_in_row[i]-1)/2)` and
`y = dith_size_y * nid_row[i]`, where `dith_size_x = 0.95*maxDither*2/16`,
`dith_size_y = 0.95*sqrt(3)*maxDither/16` and `nid_row[i] = i - 8`. -/
noncomputable def generateHexOffsets (d : ℝ) : List (ℝ × ℝ) :=
  (List.range 17).flatMap fun i =>
    (List.range (vertInRow i)).map fun j : ℕ =>
      (0.95 * d * 2 / 16 * ((j : ℝ) - ((vertInRow i : ℝ) - 1) / 2),
        0.95 * Real.sqrt 3 * d / 16 * ((i : ℝ) - 8))

/-- Spec-modelled row (named from the spec's words, for the refinement
comparison): the row at symmetric index `s ∈ -8..8` has `17 - |s|`
horizontally centred points with horizontal spacing `0.95*2*maxDither/16`
and vertical position `s` times the vertical spacing
`0.95*sqrt(3)*maxDither/16`. -/
noncomputable def hexRowSpec (d : ℝ) (s : ℤ) : List (ℝ × ℝ) :=
  (List.range (17 - s.natAbs)).map fun j : ℕ =>
    (0.95 * 2 * d / 16 * ((j : ℝ) - (((17 - s.natAbs : ℕ) : ℝ) - 1) / 2),
      0.95 * Real.sqrt 3 * d / 16 * (s : ℝ))

/-- Spec-modelled lattice: the rows at symmetric indices `-8..8` in order. -/
noncomputable def hexLatticeSpec (d : ℝ) : List (ℝ × ℝ) :=
  (List.range 17).flatMap fun i => hexRowSpec d ((i : ℤ) - 8)

/-! Claim theorems. -/

/-- C1: evidence of the dead offset cursor in the per-field-per-night
assignment (lines 454-464 and 502-512).  For the batch with two distinct
fields `[1, 2]` observed on the same night `5` and two available offsets, both
records are assigned offset index `0`: the index used for field `1` is reused
for the later field `2` within the same run invocation, because
`vertexIdxs = np.arange(len(match)) + delta` is overwritten by the
`searchsorted` ranking before it is ever used, leaving the running cursor
`delta` dead. -/
theorem C1_index_reuse : fieldPerNightIdxs [1, 2] [5, 5] 2 = [0, 0] := by
  with_unfolding_all rfl

/-- C2: evidence that two output points of one repulsive run originate from
the same tile.  With `noffsets = 2`, square-stream values `29999/30000`
(selecting the last remaining pool entry each time) and zero jitter, the
executed run returns the same originating tile **twice**: `list.remove(x[i])`
deletes the first occurrence *by value*, and since tile x-values repeat
across rows (and y-values within a row), the first draw removes a different
pool entry than the one selected, so the selected tile remains available and
is drawn again. -/
theorem C2_tile_reused :
    ∃ t : ℚ × ℚ,
      generateRepRandomOffsets 1 2 (List.replicate 6 (29999 / 30000)) [0, 0, 0, 0] =
        .ok ([((1 : ℚ) / 2, (-37 : ℚ) / 43), (1 / 2, -37 / 43)], [t, t]) :=
  ⟨((87 : ℚ) / 172, (-147 : ℚ) / 172), repRun_n2_eq⟩

/-- C5 counterexample: on seasons `[8, 10, 11, 0]` two distinct labels exceed
9, yet the wrap of `PentagonDitherPerSeasonStacker.run` (whose check is
commented out at lines 904-906) silently wraps both and the per-season
ranking proceeds on the wrapped labels instead of raising. -/
theorem C5_counterexample :
    1 < (overflowSeasons [8, 10, 11, 0]).length ∧
      seasonWrapUnchecked [8, 10, 11, 0] = [8, 0, 1, 0] ∧
      pentagonPerSeasonIdxs [8, 10, 11, 0] 10 = [2, 0, 1, 0] := by
  refine ⟨by decide, ?_, ?_⟩ <;> with_unfolding_all rfl

/-- C5 (amended): the overflow-season wrap runs once, before any ranking; the
pentagon stackers that retain the check abort when more than one distinct
label exceeds 9 and otherwise wrap every overflow label mod 10, while
`PentagonDitherPerSeasonStacker.run` wraps unconditionally (its check is
commented out), so only the checked stackers raise. -/
theorem C5_amended (seasons : List ℤ) :
    (1 < (overflowSeasons seasons).length →
      seasonWrapChecked seasons = .error .tooManySeasons) ∧
    ((overflowSeasons seasons).length ≤ 1 →
      seasonWrapChecked seasons = .ok (seasons.map wrapSeason)) ∧
    seasonWrapUnchecked seasons = seasons.map wrapSeason := by
  refine ⟨?_, ?_, rfl⟩
  · intro h
    rw [seasonWrapChecked, if_pos h]
  · intro h
    rw [seasonWrapChecked, if_neg (by omega)]

/-- Witness for C5 (amended) at the two inputs named by the claim:
`[8, 10, 11, 0]` has two distinct overflow labels and raises;
`[8, 9, 10, 10, 0]` has one and becomes `[8, 9, 0, 0, 0]`. -/
theorem C5_amended_witness :
    (1 < (overflowSeasons [8, 10, 11, 0]).length ∧
      seasonWrapChecked [8, 10, 11, 0] = .error .tooManySeasons) ∧
    ((overflowSeasons [8, 9, 10, 10, 0]).length ≤ 1 ∧
      seasonWrapChecked [8, 9, 10, 10, 0] = .ok [8, 9, 0, 0, 0]) := by
  refine ⟨⟨by decide, (C5_amended [8, 10, 11, 0]).1 (by decide)⟩,
    ⟨by decide, ?_⟩⟩
  rw [(C5_amended [8, 9, 10, 10, 0]).2.1 (by decide)]
  with_unfolding_all rfl

/-- C7 counterexample: at `(ra, dec) = (0, 3*pi)` the wrap emits
`dec = -2*pi`, which is below `-pi/2` (the reflections reduce `dec` by at
most one period), and a second application maps that `dec` to `0`: the wrap
is neither range-correct nor idempotent on all real inputs. -/
theorem C7_counterexample :
    (wrapRADecPair 0 (3 * Real.pi)).2 = -(2 * Real.pi) ∧
    (wrapRADecPair 0 (3 * Real.pi)).2 < -(Real.pi / 2) ∧
    (wrapRADecPair (wrapRADecPair 0 (3 * Real.pi)).1
        (wrapRADecPair 0 (3 * Real.pi)).2).2 = 0 ∧
    (wrapRADecPair 0 (3 * Real.pi)).2 ≠ 0 := by
  have hpi := Real.pi_pos
  have hdec : (wrapRADecPair 0 (3 * Real.pi)).2 = -(2 * Real.pi) := by
    show wrapDec2 (wrapDec1 (3 * Real.pi)) = -(2 * Real.pi)
    rw [wrapDec1, if_neg (by linarith), wrapDec2, if_pos (by linarith)]
    ring
  refine ⟨hdec, by rw [hdec]; linarith, ?_, by rw [hdec]; intro h; linarith⟩
  show wrapDec2 (wrapDec1 (wrapRADecPair 0 (3 * Real.pi)).2) = 0
  rw [hdec, wrapDec1, if_pos (by linarith)]
  have harg : -(Real.pi + -(2 * Real.pi)) = Real.pi := by ring
  rw [harg, wrapDec2, if_pos (by linarith)]
  ring

/-- C7 (amended): on the domain the stackers actually feed the wrap (any
`ra`, and `dec` within one reflection period of range, here
`-5*pi/2 ≤ dec ≤ 3*pi/2`), the wrapped `ra` lies in `[0, 2*pi)`, the wrapped
`dec` lies in `[-pi/2, pi/2]`, and applying the wrap a second time changes
nothing. -/
theorem C7_wrap_amended (ra dec : ℝ) (hlo : -(5 * Real.pi / 2) ≤ dec)
    (hhi : dec ≤ 3 * Real.pi / 2) :
    0 ≤ (wrapRADecPair ra dec).1 ∧ (wrapRADecPair ra dec).1 < 2 * Real.pi ∧
    -(Real.pi / 2) ≤ (wrapRADecPair ra dec).2 ∧
    (wrapRADecPair ra dec).2 ≤ Real.pi / 2 ∧
    wrapRADecPair (wrapRADecPair ra dec).1 (wrapRADecPair ra dec).2 =
      wrapRADecPair ra dec := by
  obtain ⟨h1, h2⟩ := wrapRADecPair_ra_range ra dec
  obtain ⟨h3, h4⟩ := wrapRADecPair_dec_range ra hlo hhi
  exact ⟨h1, h2, h3, h4, by rw [wrapRADecPair_fixed h1 h2 h3 h4]⟩

/-- Witness for C7 (amended) at `(ra, dec) = (0, 0)`. -/
theorem C7_wrap_amended_witness :
    -(5 * Real.pi / 2) ≤ (0 : ℝ) ∧ (0 : ℝ) ≤ 3 * Real.pi / 2 ∧
      (0 ≤ (wrapRADecPair 0 0).1 ∧ (wrapRADecPair 0 0).1 < 2 * Real.pi ∧
      -(Real.pi / 2) ≤ (wrapRADecPair 0 0).2 ∧
      (wrapRADecPair 0 0).2 ≤ Real.pi / 2 ∧
      wrapRADecPair (wrapRADecPair 0 0).1 (wrapRADecPair 0 0).2 =
        wrapRADecPair 0 0) := by
  have hpi := Real.pi_pos
  exact ⟨by linarith, by linarith, C7_wrap_amended 0 0 (by linarith) (by linarith)⟩

theorem generateRepRandomOffsets_eq (d : ℚ) (n : ℕ) (sqs pts : List ℚ) :
    generateRepRandomOffsets d n sqs pts =
      if ((hexTiles d (ceilSqrt n + 170)).length : ℤ) < n then .error .tooFewTiles
      else repDrawLoop (2 * d / ((ceilSqrt n + 170 : ℕ) : ℚ)) sqs pts n
        ⟨(hexTiles d (ceilSqrt n + 170)).map Prod.fst,
          (hexTiles d (ceilSqrt n + 170)).map Prod.snd,
          ((hexTiles d (ceilSqrt n + 170)).length : ℤ), 0, 0⟩ [] [] := rfl

/-- The draw loop can fail only with `.badIndex` or `.streamExhausted`: it
never reports the tile-shortage error, which is raised before it starts. -/
theorem repDrawLoop_ne_tooFewTiles (ts : ℚ) (sqs pts : List ℚ) :
    ∀ (q : ℕ) (st : RepState) (a b : List (ℚ × ℚ)),
      repDrawLoop ts sqs pts q st a b ≠ .error .tooFewTiles := by
  intro q
  induction q with
  | zero => intro st a b; simp [repDrawLoop]
  | succ q ih =>
    intro st a b
    rw [repDrawLoop]
    cases hs : sqs.get? st.isq with
    | none => simp
    | some u =>
      dsimp only
      by_cases hri : (⌊u * st.cnt⌋ < 0 ∨ (st.xC.length : ℤ) - 1 < ⌊u * st.cnt⌋)
      · rw [if_pos hri]; simp
      · rw [if_neg hri]
        cases hx : st.xC.get? (⌊u * st.cnt⌋).toNat <;>
          cases hy : st.yC.get? (⌊u * st.cnt⌋).toNat <;>
          cases hp1 : pts.get? st.ipt <;>
          cases hp2 : pts.get? (st.ipt + 1) <;>
          simp [ih]

/-- For a filter over a negative dither scale the hexagon is empty: the two
horizontal half-planes `y <= sqrt(3)*d/2` and `y >= -sqrt(3)*d/2` are
incompatible, so every tile centre is rejected. -/
theorem hexTiles_neg_nil (N : ℕ) : hexTiles (-1) N = [] := by
  rw [hexTiles, List.filter_eq_nil_iff]
  intro p _
  intro hb
  rw [insideHexB_iff] at hb
  obtain ⟨_, _, _, _, h5, h6⟩ := hb
  have h3 : (0 : ℝ) < Real.sqrt 3 := Real.sqrt_pos.mpr (by norm_num)
  push_cast at h5 h6
  nlinarith [h5, h6, h3]

/-- Any x-coordinate of the repulsive tile pool is at most `maxDither` in
absolute value: the four slanted half-planes force `|x| ≤ d`. -/
theorem hexTiles_fst_abs_le {d : ℚ} {N : ℕ} {x : ℚ}
    (hx : x ∈ (hexTiles d N).map Prod.fst) : |(x : ℝ)| ≤ (d : ℝ) := by
  obtain ⟨p, hp, rfl⟩ := List.mem_map.mp hx
  rw [hexTiles] at hp
  have hb := (List.mem_filter.mp hp).2
  rw [insideHexB_iff] at hb
  obtain ⟨h1, h2, h3, h4, -, -⟩ := hb
  have h3' : (0 : ℝ) < Real.sqrt 3 := Real.sqrt_pos.mpr (by norm_num)
  have le1 := (mul_le_mul_left h3').mp (le_trans h2 h3)
  have le2 := (mul_le_mul_left h3').mp (le_trans h4 h1)
  rw [abs_le]
  constructor <;> linarith

/-- Any y-coordinate of the repulsive tile pool is at most `sqrt(3)*d/2` in
absolute value: the two horizontal half-planes. -/
theorem hexTiles_snd_abs_le {d : ℚ} {N : ℕ} {y : ℚ}
    (hy : y ∈ (hexTiles d N).map Prod.snd) :
    |(y : ℝ)| ≤ Real.sqrt 3 * (d : ℝ) / 2 := by
  obtain ⟨p, hp, rfl⟩ := List.mem_map.mp hy
  rw [hexTiles] at hp
  have hb := (List.mem_filter.mp hp).2
  rw [insideHexB_iff] at hb
  obtain ⟨-, -, -, -, h5, h6⟩ := hb
  have e1 : Real.sqrt 3 * ((d : ℝ) / 2) = Real.sqrt 3 * (d : ℝ) / 2 := by ring
  have e2 : Real.sqrt 3 * (-((d : ℝ) / 2)) = -(Real.sqrt 3 * (d : ℝ) / 2) := by ring
  rw [e1] at h5
  rw [e2] at h6
  rw [abs_le]
  exact ⟨h6, h5⟩

/-- Every offset the draw loop accumulates stays within the given coordinate
bounds enlarged by half a tile side, provided the pools respect the bounds
and the jitter stream stays in `[0, 1]`. -/
theorem repDrawLoop_abs_bounds (ts : ℚ) (sqs pts : List ℚ) (X Y : ℝ)
    (hpts : ∀ u ∈ pts, 0 ≤ u ∧ u ≤ 1) (hts : 0 ≤ ts) :
    ∀ (q : ℕ) (st : RepState) (accOff accTile : List (ℚ × ℚ))
      (offs tiles : List (ℚ × ℚ)),
    (∀ x ∈ st.xC, |(x : ℝ)| ≤ X) → (∀ y ∈ st.yC, |(y : ℝ)| ≤ Y) →
    (∀ p ∈ accOff, |(p.1 : ℝ)| ≤ X + (ts : ℝ) / 2 ∧
      |(p.2 : ℝ)| ≤ Y + (ts : ℝ) / 2) →
    repDrawLoop ts sqs pts q st accOff accTile = .ok (offs, tiles) →
    ∀ p ∈ offs, |(p.1 : ℝ)| ≤ X + (ts : ℝ) / 2 ∧
      |(p.2 : ℝ)| ≤ Y + (ts : ℝ) / 2 := by
  intro q
  induction q with
  | zero =>
    intro st accOff accTile offs tiles hX hY hacc h
    rw [repDrawLoop] at h
    have h' := Except.ok.inj h
    obtain ⟨rfl, rfl⟩ : accOff.reverse = offs ∧ accTile.reverse = tiles :=
      ⟨congrArg Prod.fst h', congrArg Prod.snd h'⟩
    intro p hp
    exact hacc p (List.mem_reverse.mp hp)
  | succ q ih =>
    intro st accOff accTile offs tiles hX hY hacc h
    rw [repDrawLoop] at h
    cases hs : sqs.get? st.isq with
    | none => rw [hs] at h; exact Except.noConfusion h
    | some u =>
      rw [hs] at h
      dsimp only at h
      by_cases hri : (⌊u * st.cnt⌋ < 0 ∨ (st.xC.length : ℤ) - 1 < ⌊u * st.cnt⌋)
      · rw [if_pos hri] at h; exact Except.noConfusion h
      · rw [if_neg hri] at h
        cases hxg : st.xC.get? (⌊u * st.cnt⌋).toNat with
        | none =>
          rw [hxg] at h
          cases st.yC.get? (⌊u * st.cnt⌋).toNat <;>
            cases pts.get? st.ipt <;> cases pts.get? (st.ipt + 1) <;>
            exact Except.noConfusion h
        | some xc =>
          rw [hxg] at h
          cases hyg : st.yC.get? (⌊u * st.cnt⌋).toNat with
          | none =>
            rw [hyg] at h
            cases pts.get? st.ipt <;> cases pts.get? (st.ipt + 1) <;>
              exact Except.noConfusion h
          | some yc =>
            rw [hyg] at h
            cases hp1 : pts.get? st.ipt with
            | none =>
              rw [hp1] at h
              cases pts.get? (st.ipt + 1) <;> exact Except.noConfusion h
            | some u1 =>
              rw [hp1] at h
              cases hp2 : pts.get? (st.ipt + 1) with
              | none => rw [hp2] at h; exact Except.noConfusion h
              | some u2 =>
                rw [hp2] at h
                have hxc := hX xc (List.get?_mem hxg)
                have hyc := hY yc (List.get?_mem hyg)
                obtain ⟨hu1a, hu1b⟩ := hpts u1 (List.get?_mem hp1)
                obtain ⟨hu2a, hu2b⟩ := hpts u2 (List.get?_mem hp2)
                refine ih _ _ _ _ _
                  (fun x hx => hX x (List.mem_of_mem_erase hx))
                  (fun y hy => hY y (List.mem_of_mem_erase hy)) ?_ h
                intro p hp
                rcases List.mem_cons.mp hp with rfl | hpold
                · have htsr : (0 : ℝ) ≤ (ts : ℝ) := by exact_mod_cast hts
                  have hu1r : |((u1 : ℝ) - 1 / 2)| ≤ 1 / 2 := by
                    rw [abs_le]
                    constructor <;> [skip; skip] <;>
                      [linarith [(by exact_mod_cast hu1a : (0:ℝ) ≤ (u1:ℝ))];
                       linarith [(by exact_mod_cast hu1b : (u1:ℝ) ≤ 1)]]
                  have hu2r : |((u2 : ℝ) - 1 / 2)| ≤ 1 / 2 := by
                    rw [abs_le]
                    constructor <;> [skip; skip] <;>
                      [linarith [(by exact_mod_cast hu2a : (0:ℝ) ≤ (u2:ℝ))];
                       linarith [(by exact_mod_cast hu2b : (u2:ℝ) ≤ 1)]]
                  constructor
                  · have hcast : ((xc + (u1 - 1 / 2) * ts : ℚ) : ℝ) =
                        (xc : ℝ) + ((u1 : ℝ) - 1 / 2) * (ts : ℝ) := by push_cast; ring
                    show |((xc + (u1 - 1 / 2) * ts : ℚ) : ℝ)| ≤ X + (ts : ℝ) / 2
                    rw [hcast]
                    calc |(xc : ℝ) + ((u1 : ℝ) - 1 / 2) * (ts : ℝ)|
                        ≤ |(xc : ℝ)| + |((u1 : ℝ) - 1 / 2) * (ts : ℝ)| := abs_add _ _
                      _ ≤ X + (ts : ℝ) / 2 := by
                          rw [abs_mul, abs_of_nonneg htsr]
                          nlinarith [hu1r, htsr, hxc, abs_nonneg ((u1:ℝ) - 1/2)]
                  · have hcast : ((yc + (u2 - 1 / 2) * ts : ℚ) : ℝ) =
                        (yc : ℝ) + ((u2 : ℝ) - 1 / 2) * (ts : ℝ) := by push_cast; ring
                    show |((yc + (u2 - 1 / 2) * ts : ℚ) : ℝ)| ≤ Y + (ts : ℝ) / 2
                    rw [hcast]
                    calc |(yc : ℝ) + ((u2 : ℝ) - 1 / 2) * (ts : ℝ)|
                        ≤ |(yc : ℝ)| + |((u2 : ℝ) - 1 / 2) * (ts : ℝ)| := abs_add _ _
                      _ ≤ Y + (ts : ℝ) / 2 := by
                          rw [abs_mul, abs_of_nonneg htsr]
                          nlinarith [hu2r, htsr, hyc, abs_nonneg ((u2:ℝ) - 1/2)]
                · exact hacc p hpold

/-- C3 counterexample: the repulsive generator can emit a point outside the
hexagon.  With `maxDither = 1`, `noffsets = 1`, square stream `[0, 0, 0]`
(selecting the first pool tile, a boundary tile of the `N = 171` grid) and
jitter stream `[0, 199/200]`, the run succeeds and returns the offset
`(-85/171, 14899/17100)`, which violates the half-plane
`y < sqrt(3)*x + sqrt(3)*maxDither`: the jitter is applied per coordinate in
the enclosing square of the tile, which protrudes past the slanted edge. -/
theorem C3_outside_hex :
    generateRepRandomOffsets 1 1 [0, 0, 0] [0, 199 / 200] =
      .ok ([((-85 : ℚ) / 171, (14899 : ℚ) / 17100)],
        [((-84 : ℚ) / 171, (148 : ℚ) / 171)]) ∧
    ¬ InsideHexOpen (1 : ℝ) ((((-85 : ℚ) / 171 : ℚ) : ℝ))
      ((((14899 : ℚ) / 17100 : ℚ) : ℝ)) := by
  refine ⟨repRun_n1_eq, ?_⟩
  intro h
  obtain ⟨h1, -, -, -, -, -⟩ := h
  push_cast at h1
  have hsq : Real.sqrt 3 ≤ 14899 / 8600 := by
    have h2 : (14899 / 8600 : ℝ) = Real.sqrt ((14899 / 8600) ^ 2) :=
      (Real.sqrt_sq (by norm_num)).symm
    rw [h2]
    apply Real.sqrt_le_sqrt
    norm_num
  have h3 : Real.sqrt 3 * (-85 / 171 : ℝ) + Real.sqrt 3 * 1 =
      Real.sqrt 3 * (86 / 171) := by ring
  rw [h3] at h1
  have h4 : Real.sqrt 3 * (86 / 171 : ℝ) ≤ (14899 / 8600) * (86 / 171) :=
    mul_le_mul_of_nonneg_right hsq (by norm_num)
  have h5 : (14899 / 8600 : ℝ) * (86 / 171) = 14899 / 17100 := by norm_num
  linarith

/-- C3 (amended): every offset emitted by the uniform-random-in-hexagon
generator does satisfy all six strict half-plane constraints (the rejection
filter guarantees it); the repulsive generator only guarantees the enlarged
bounds `|x| ≤ maxDither + maxDither/N` and
`|y| ≤ sqrt(3)*maxDither/2 + maxDither/N` (tile-centre bounds plus half-tile
jitter, `N = ceil(sqrt(noffsets)) + 170`), and its offsets can leave the
hexagon itself. -/
theorem C3_inside_amended (dr : ℝ) (dq : ℚ) (n : ℕ) (radU thetaU : List ℝ)
    (sqs pts : List ℚ) (hd : 0 ≤ dq) (hpts : ∀ u ∈ pts, 0 ≤ u ∧ u ≤ 1) :
    (∀ xs ys, generateRandomOffsets dr n radU thetaU = .ok (xs, ys) →
      ∀ p ∈ xs.zip ys, InsideHexOpen dr p.1 p.2) ∧
    (∀ offs tiles, generateRepRandomOffsets dq n sqs pts = .ok (offs, tiles) →
      ∀ p ∈ offs,
        |(p.1 : ℝ)| ≤ (dq : ℝ) + (dq : ℝ) / ((ceilSqrt n + 170 : ℕ) : ℝ) ∧
        |(p.2 : ℝ)| ≤ Real.sqrt 3 * (dq : ℝ) / 2 +
          (dq : ℝ) / ((ceilSqrt n + 170 : ℕ) : ℝ)) := by
  constructor
  · intro xs ys h p hp
    classical
    rw [generateRandomOffsets] at h
    by_cases hlt : (acceptedOffsets dr radU thetaU).length < n
    · rw [if_pos hlt] at h; exact Except.noConfusion h
    · rw [if_neg hlt] at h
      have h' := Except.ok.inj h
      obtain ⟨rfl, rfl⟩ : ((acceptedOffsets dr radU thetaU).take n).map Prod.fst
            = xs ∧
          ((acceptedOffsets dr radU thetaU).take n).map Prod.snd = ys :=
        ⟨congrArg Prod.fst h', congrArg Prod.snd h'⟩
      rw [show (((acceptedOffsets dr radU thetaU).take n).map Prod.fst).zip
            (((acceptedOffsets dr radU thetaU).take n).map Prod.snd) =
          (acceptedOffsets dr radU thetaU).take n by
        have hz := List.zip_unzip ((acceptedOffsets dr radU thetaU).take n)
        rw [List.unzip_eq_map] at hz
        exact hz] at hp
      have hp2 := List.take_subset n _ hp
      rw [acceptedOffsets, List.mem_filter] at hp2
      exact of_decide_eq_true hp2.2
  · intro offs tiles h p hp
    rw [generateRepRandomOffsets_eq] at h
    by_cases hlt : ((hexTiles dq (ceilSqrt n + 170)).length : ℤ) < n
    · rw [if_pos hlt] at h; exact Except.noConfusion h
    · rw [if_neg hlt] at h
      have hts0 : (0 : ℚ) ≤ 2 * dq / ((ceilSqrt n + 170 : ℕ) : ℚ) :=
        div_nonneg (by linarith) (Nat.cast_nonneg _)
      have hbnd := repDrawLoop_abs_bounds (2 * dq / ((ceilSqrt n + 170 : ℕ) : ℚ))
        sqs pts (dq : ℝ) (Real.sqrt 3 * (dq : ℝ) / 2) hpts hts0 n
        ⟨(hexTiles dq (ceilSqrt n + 170)).map Prod.fst,
          (hexTiles dq (ceilSqrt n + 170)).map Prod.snd,
          ((hexTiles dq (ceilSqrt n + 170)).length : ℤ), 0, 0⟩ [] [] offs tiles
        (fun x hx => hexTiles_fst_abs_le hx)
        (fun y hy => hexTiles_snd_abs_le hy)
        (by intro p hp; cases hp) h p hp
      have hconv : (((2 * dq / ((ceilSqrt n + 170 : ℕ) : ℚ)) : ℚ) : ℝ) / 2 =
          (dq : ℝ) / ((ceilSqrt n + 170 : ℕ) : ℝ) := by
        push_cast
        ring
      rw [hconv] at hbnd
      exact hbnd

/-- Witness for C3 (amended) at the counterexample's repulsive input and an
empty random-candidate stream. -/
theorem C3_inside_amended_witness :
    (0 ≤ (1 : ℚ)) ∧ (∀ u ∈ ([0, 199 / 200] : List ℚ), 0 ≤ u ∧ u ≤ 1) ∧
    ((∀ xs ys, generateRandomOffsets 1 1 [] [] = .ok (xs, ys) →
        ∀ p ∈ xs.zip ys, InsideHexOpen 1 p.1 p.2) ∧
      (∀ offs tiles,
        generateRepRandomOffsets 1 1 [0, 0, 0] [0, 199 / 200] = .ok (offs, tiles) →
        ∀ p ∈ offs,
          |(p.1 : ℝ)| ≤ ((1 : ℚ) : ℝ) + ((1 : ℚ) : ℝ) / ((ceilSqrt 1 + 170 : ℕ) : ℝ) ∧
          |(p.2 : ℝ)| ≤ Real.sqrt 3 * ((1 : ℚ) : ℝ) / 2 +
            ((1 : ℚ) : ℝ) / ((ceilSqrt 1 + 170 : ℕ) : ℝ))) := by
  have hu : ∀ u ∈ ([0, 199 / 200] : List ℚ), 0 ≤ u ∧ u ≤ 1 := by
    intro u hu
    rcases List.mem_cons.mp hu with rfl | hu2
    · norm_num
    · rcases List.mem_cons.mp hu2 with rfl | hu3
      · norm_num
      · cases hu3
  exact ⟨by norm_num, hu,
    C3_inside_amended 1 1 1 [] [] [0, 0, 0] [0, 199 / 200] (by norm_num) hu⟩

/-- C4: whenever a generator cannot produce the requested number of valid
offsets, the condition is reported as an error (the random generator leaves
the offsets unset after its diagnostic print, failing the run; the repulsive
generator aborts via the undefined name `stop`), and a successful run's
offset lists are exactly the first `noffsets` accepted candidates — never a
shorter or padded sequence. -/
theorem C4_insufficient_reported (d : ℝ) (dq : ℚ) (noffsets : ℕ)
    (radU thetaU : List ℝ) (sqs pts : List ℚ) :
    (generateRandomOffsets d noffsets radU thetaU = .error .insufficientYield ↔
      (acceptedOffsets d radU thetaU).length < noffsets) ∧
    (∀ xs ys, generateRandomOffsets d noffsets radU thetaU = .ok (xs, ys) →
      xs.length = noffsets ∧ ys.length = noffsets ∧
      xs = ((acceptedOffsets d radU thetaU).take noffsets).map Prod.fst ∧
      ys = ((acceptedOffsets d radU thetaU).take noffsets).map Prod.snd) ∧
    (generateRepRandomOffsets dq noffsets sqs pts = .error .tooFewTiles ↔
      ((hexTiles dq (ceilSqrt noffsets + 170)).length : ℤ) < noffsets) := by
  refine ⟨⟨?_, ?_⟩, ?_, ⟨?_, ?_⟩⟩
  · intro h
    by_contra hlt
    rw [generateRandomOffsets, if_neg hlt] at h
    exact Except.noConfusion h
  · intro h
    rw [generateRandomOffsets, if_pos h]
  · intro xs ys h
    by_cases hlt : (acceptedOffsets d radU thetaU).length < noffsets
    · rw [generateRandomOffsets, if_pos hlt] at h
      exact Except.noConfusion h
    · rw [generateRandomOffsets, if_neg hlt] at h
      push_neg at hlt
      have h' := Except.ok.inj h
      obtain ⟨hx, hy⟩ := Prod.mk.injEq _ _ _ _ ▸ h'
      refine ⟨?_, ?_, hx.symm, hy.symm⟩
      · rw [← hx, List.length_map, List.length_take]
        omega
      · rw [← hy, List.length_map, List.length_take]
        omega
  · intro h
    by_contra hlt
    rw [generateRepRandomOffsets_eq, if_neg hlt] at h
    exact repDrawLoop_ne_tooFewTiles _ _ _ _ _ _ _ h
  · intro h
    rw [generateRepRandomOffsets_eq, if_pos h]

/-- Witness for C4: an empty candidate stream cannot yield one random offset
(`.insufficientYield`), and a negative dither scale leaves no tile inside the
hexagon (`.tooFewTiles`). -/
theorem C4_insufficient_reported_witness :
    generateRandomOffsets 1 1 [] [] = .error .insufficientYield ∧
      generateRepRandomOffsets (-1) 1 [] [] = .error .tooFewTiles := by
  constructor
  · apply (C4_insufficient_reported 1 1 1 [] [] [] []).1.mpr
    rw [show acceptedOffsets 1 [] [] = [] from rfl]
    norm_num
  · apply (C4_insufficient_reported 1 (-1) 1 [] [] [] []).2.2.mpr
    rw [hexTiles_neg_nil]
    norm_num

/-- C8: the sequential-hexagonal-grid generator realises, for every
`maxDither`, exactly the fixed 17-row lattice described by the spec — row at
symmetric index `s ∈ -8..8` holding `17 - |s|` horizontally centred points
with the stated spacings — and its output count is `217` independent of the
input batch (the batch only indexes into the fixed lattice). -/
theorem C8_hex_lattice (d : ℝ) :
    generateHexOffsets d = hexLatticeSpec d ∧
      (generateHexOffsets d).length = 217 := by
  have hrow : ∀ i : ℕ, ((List.range (vertInRow i)).map fun j : ℕ =>
      (0.95 * d * 2 / 16 * ((j : ℝ) - ((vertInRow i : ℝ) - 1) / 2),
        0.95 * Real.sqrt 3 * d / 16 * ((i : ℝ) - 8))) =
      hexRowSpec d ((i : ℤ) - 8) := by
    intro i
    rw [hexRowSpec]
    have hv : 17 - ((i : ℤ) - 8).natAbs = vertInRow i := rfl
    rw [hv]
    apply List.map_congr_left
    intro j hj
    have h8 : ((((i : ℤ) - 8 : ℤ)) : ℝ) = (i : ℝ) - 8 := by push_cast; ring
    rw [h8]
    simp only [Prod.mk.injEq]
    exact ⟨by ring, trivial⟩
  constructor
  · rw [generateHexOffsets, hexLatticeSpec]
    exact congrArg _ (funext hrow)
  · rw [generateHexOffsets, List.length_flatMap]
    simp only [Function.comp_def, List.length_map, List.length_range]
    decide

/-- C9: with a seed supplied, a run invocation is a deterministic function of
the seed and the input batch alone: the seed is applied once at the start
(lines 124-125), replacing the whole generator state, so two invocations with
the same seed and batch — whatever the prior stream states `g`, `g'` — return
identical output columns. -/
theorem C9_seed_deterministic (dr : ℝ) (dq : ℚ) (s : ℕ) (g g' : Rng)
    (batch : List (ℝ × ℝ)) :
    runRandomDitherFieldPerVisit dr (some s) g batch =
      runRandomDitherFieldPerVisit dr (some s) g' batch ∧
    runRepRandomDitherFieldPerVisit dq (some s) g batch =
      runRepRandomDitherFieldPerVisit dq (some s) g' batch :=
  ⟨rfl, rfl⟩

/-- C10: the `offset/cos(dec)` RA correction (lines 132-133, and the same
expression in every other `run`) has no guard on the divisor, and no
precondition excludes `dec = pi/2`: for the singleton batch at the pole the
seeded run reaches the division by `cos(pi/2) = 0` — the guard branch of the
total embedding is reachable from the public run interface. -/
theorem C10_divzero_reachable :
    runRandomDitherFieldPerVisit 1 (some 0) (seedRng 0)
      [((0 : ℝ), Real.pi / 2)] = .error .divByZero := by
  classical
  have h1 : runRandomDitherFieldPerVisit 1 (some 0) (seedRng 0)
      [((0 : ℝ), Real.pi / 2)] =
      match generateRandomOffsets 1 1
          ([seedVals 0 0, seedVals 0 1].map fun q : ℚ => (q : ℝ))
          ([seedVals 0 2, seedVals 0 3].map fun q : ℚ => (q : ℝ)) with
      | .error e => .error e
      | .ok (xs, ys) => (([((0 : ℝ), Real.pi / 2)]).zip (xs.zip ys)).mapM
          fun rp => applyOffset rp.1 rp.2 := rfl
  have hv0 : ((seedVals 0 0 : ℚ) : ℝ) = 0 := by norm_num [seedVals]
  have hv1 : ((seedVals 0 1 : ℚ) : ℝ) = 1 / 4 := by norm_num [seedVals]
  have hv2 : ((seedVals 0 2 : ℚ) : ℝ) = 1 / 2 := by norm_num [seedVals]
  have hv3 : ((seedVals 0 3 : ℚ) : ℝ) = 3 / 4 := by norm_num [seedVals]
  have hmap1 : ([seedVals 0 0, seedVals 0 1].map fun q => ((q : ℚ) : ℝ)) =
      [(0 : ℝ), 1 / 4] := by simp [hv0, hv1]
  have hmap2 : ([seedVals 0 2, seedVals 0 3].map fun q => ((q : ℚ) : ℝ)) =
      [(1 / 2 : ℝ), 3 / 4] := by simp [hv2, hv3]
  have hs14 : Real.sqrt (1 / 4) = 1 / 2 := by
    rw [show (1 / 4 : ℝ) = (1 / 2) ^ 2 by norm_num, Real.sqrt_sq (by norm_num)]
  have harg : (3 / 4 : ℝ) * Real.pi * 2 = Real.pi + Real.pi / 2 := by ring
  have hcos32 : Real.cos ((3 / 4 : ℝ) * Real.pi * 2) = 0 := by
    rw [harg, Real.cos_add, Real.cos_pi, Real.sin_pi, Real.cos_pi_div_two,
      Real.sin_pi_div_two]
    ring
  have hsin32 : Real.sin ((3 / 4 : ℝ) * Real.pi * 2) = -1 := by
    rw [harg, Real.sin_add, Real.cos_pi, Real.sin_pi, Real.cos_pi_div_two,
      Real.sin_pi_div_two]
    ring
  have hcands : randomCandidates 1 [(0 : ℝ), 1 / 4] [(1 / 2 : ℝ), 3 / 4] =
      [((0 : ℝ), (0 : ℝ)), ((0 : ℝ), -(1 / 2))] := by
    rw [show randomCandidates 1 [(0 : ℝ), 1 / 4] [(1 / 2 : ℝ), 3 / 4] =
        [(Real.sqrt 0 * 1 * Real.cos ((1 / 2 : ℝ) * Real.pi * 2),
          Real.sqrt 0 * 1 * Real.sin ((1 / 2 : ℝ) * Real.pi * 2)),
         (Real.sqrt (1 / 4) * 1 * Real.cos ((3 / 4 : ℝ) * Real.pi * 2),
          Real.sqrt (1 / 4) * 1 * Real.sin ((3 / 4 : ℝ) * Real.pi * 2))] from rfl]
    rw [Real.sqrt_zero, hs14, hcos32, hsin32]
    norm_num
  have hin : InsideHexOpen 1 0 0 := by
    have h3 : (0 : ℝ) < Real.sqrt 3 := Real.sqrt_pos.mpr (by norm_num)
    exact ⟨by linarith, by linarith, by linarith, by linarith, by linarith,
      by linarith⟩
  have haccsplit : acceptedOffsets 1 [(0 : ℝ), 1 / 4] [(1 / 2 : ℝ), 3 / 4] =
      ((0 : ℝ), (0 : ℝ)) :: List.filter
        (fun p => decide (InsideHexOpen 1 p.1 p.2)) [((0 : ℝ), -(1 / 2))] := by
    rw [acceptedOffsets, hcands, List.filter_cons, if_pos (decide_eq_true hin)]
  have hgen : generateRandomOffsets 1 1 [(0 : ℝ), 1 / 4] [(1 / 2 : ℝ), 3 / 4] =
      .ok ([0], [0]) := by
    rw [generateRandomOffsets,
      if_neg (by rw [haccsplit, List.length_cons]; omega), haccsplit]
    simp
  have happ : applyOffset ((0 : ℝ), Real.pi / 2) ((0 : ℝ), (0 : ℝ)) =
      .error .divByZero := by
    rw [applyOffset,
      if_pos (show Real.cos ((0 : ℝ), Real.pi / 2).2 = 0 from Real.cos_pi_div_two)]
  rw [h1, hmap1, hmap2, hgen]
  show ([(((0 : ℝ), Real.pi / 2), ((0 : ℝ), (0 : ℝ)))]).mapM
      (fun rp => applyOffset rp.1 rp.2) = .error .divByZero
  rw [List.mapM_cons, happ]
  rfl

end Dither

